import Mathlib

/-!
# Fireworks relay: server (`app.js`) and client (`public/sketch.js`)

A shallow embedding of the Socket.IO relay server and of the parts of the
p5 client that turn a network payload into a `Firework`.

* JavaScript values that travel over the wire are JSON values (plus
  `undefined` for an absent argument or an absent property).
* The server is a state machine whose steps are the handler invocations
  (`connection`, `launch`, `disconnect`).  Node runs each callback to
  completion, so a handler invocation is one step.
* Every handler returns the new state together with the list of actions it
  performed, in program order.
-/

namespace Fireworks

/-! ## JavaScript values -/

/-- A JavaScript value as it arrives over the socket: a JSON value, or
`undefined`.  JSON numbers are finite, so a number carries a rational. -/
inductive JSVal where
  | undefined : JSVal
  | null : JSVal
  | bool (b : Bool) : JSVal
  | num (q : ℚ) : JSVal
  | str (s : String) : JSVal
  | obj (fields : List (String × JSVal)) : JSVal
  | arr (items : List JSVal) : JSVal

/-- The `typeof` operator. -/
def JSVal.typeof : JSVal → String
  | .undefined => "undefined"
  | .null => "object"
  | .bool _ => "boolean"
  | .num _ => "number"
  | .str _ => "string"
  | .obj _ => "object"
  | .arr _ => "object"

/-- Truthiness (`ToBoolean`): `undefined`, `null`, `false`, `0` and `""` are
falsy, everything else is truthy. -/
def JSVal.truthy : JSVal → Bool
  | .undefined => false
  | .null => false
  | .bool b => b
  | .num q => decide (q ≠ 0)
  | .str s => decide (s ≠ "")
  | .obj _ => true
  | .arr _ => true

/-- The guard `!fw || typeof fw !== "object"` that both the server's launch
handler and the client's `spawnFireworkFromNetwork` start with. -/
def rejects (fw : JSVal) : Bool :=
  (!fw.truthy) || (fw.typeof != "object")

/-! ## Server state and actions (`app.js`) -/

/-- Identifier of a connected socket (`socket.id`), opaque and unique. -/
abbrev SocketId := Nat

/-- One message handed to the transport for one socket. -/
structure Msg where
  dest : SocketId
  name : String
  data : JSVal

/-- What a handler does, in program order. -/
inductive Action where
  | push (fw : JSVal) : Action
  | shift : Action
  | send (m : Msg) : Action

/-- The process-wide state: the `fireworksHistory` array, the sockets that
Socket.IO currently holds as connected (oldest first), and the supply of
fresh socket identifiers. -/
structure Server where
  fireworksHistory : List JSVal
  sockets : List SocketId
  nextId : Nat

/-- The constant `MAX_HISTORY` of `app.js`. -/
def MAX_HISTORY : Nat := 120

/-- State at process start: empty history, nobody connected. -/
def Server.init : Server :=
  { fireworksHistory := [], sockets := [], nextId := 0 }

/-- The call `socket.emit(name, data)`: one message, to that socket only. -/
def socketEmit (socket : SocketId) (name : String) (data : JSVal) : List Action :=
  [Action.send { dest := socket, name := name, data := data }]

/-- The call `io.emit(name, data)`: one message to every connected socket. -/
def ioEmit (σ : Server) (name : String) (data : JSVal) : List Action :=
  σ.sockets.map (fun s => Action.send { dest := s, name := name, data := data })

/-- The callback of `io.on("connection", (socket) => ...)`, lines 30-34: it
logs and sends the history to the new socket. -/
def connectionHandler (σ : Server) (socket : SocketId) : Server × List Action :=
  (σ, socketEmit socket "history" (JSVal.arr σ.fireworksHistory))

/-- The callback of `socket.on("launch", (fw) => ...)`, lines 37-47, with the
capacity as a parameter (`MAX_HISTORY` in the program). -/
def launchHandler (maxHistory : Nat) (σ : Server) (fw : JSVal) : Server × List Action :=
  if rejects fw then (σ, [])
  else
    let pushed := σ.fireworksHistory ++ [fw]
    let over := decide (pushed.length > maxHistory)
    let σ1 : Server := { σ with fireworksHistory := if over then pushed.tail else pushed }
    (σ1, [Action.push fw] ++ (if over then [Action.shift] else []) ++ ioEmit σ1 "launch" fw)

/-- The callback of `socket.on("disconnect", ...)`, lines 49-51: it only logs. -/
def disconnectHandler (σ : Server) (_socket : SocketId) : Server × List Action :=
  (σ, [])

/-- What the environment does to the server. -/
inductive Input where
  | connect : Input
  | launch (s : SocketId) (fw : JSVal) : Input
  | disconnect (s : SocketId) : Input

/-- One step of the server.  Socket.IO registers a new socket under a fresh
identifier before it runs the connection callback; it runs a socket's
`launch` callback only while that socket is connected; and on disconnect it
removes the socket and runs the disconnect callback. -/
def step (maxHistory : Nat) (σ : Server) : Input → Server × List Action
  | .connect =>
      connectionHandler
        { σ with sockets := σ.sockets ++ [σ.nextId], nextId := σ.nextId + 1 } σ.nextId
  | .launch s fw =>
      if s ∈ σ.sockets then launchHandler maxHistory σ fw else (σ, [])
  | .disconnect s =>
      if s ∈ σ.sockets then
        disconnectHandler { σ with sockets := σ.sockets.filter (fun c => c != s) } s
      else (σ, [])

/-- Running a trace of inputs: final state and all actions, oldest first. -/
def run (maxHistory : Nat) : Server → List Input → Server × List Action
  | σ, [] => (σ, [])
  | σ, e :: es =>
      let r := step maxHistory σ e
      let rest := run maxHistory r.1 es
      (rest.1, r.2 ++ rest.2)

/-- Handling a list of launch payloads one after another. -/
def handleAll (maxHistory : Nat) (σ : Server) (fws : List JSVal) : Server :=
  fws.foldl (fun τ fw => (launchHandler maxHistory τ fw).1) σ

/-- The messages among `acts` that are addressed to socket `c`. -/
def received (c : SocketId) : List Action → List Msg
  | [] => []
  | Action.send m :: rest => if m.dest = c then m :: received c rest else received c rest
  | _ :: rest => received c rest

/-- The payloads pushed onto the history among `acts`, in order. -/
def pushes : List Action → List JSVal
  | [] => []
  | Action.push fw :: rest => fw :: pushes rest
  | _ :: rest => pushes rest

/-- The last `n` elements of a list (all of it when it is shorter). -/
def lastN {α : Type} (n : Nat) (xs : List α) : List α :=
  xs.drop (xs.length - n)

/-- The payload that the server accepts at input `e` in state `σ`, if any:
that of a `launch` that comes from a connected socket and passes the guard. -/
def acceptedAt (σ : Server) : Input → List JSVal
  | .launch s fw => if s ∈ σ.sockets ∧ rejects fw = false then [fw] else []
  | _ => []

/-- The payloads of a trace that the server accepts, in order. -/
def accepted (maxHistory : Nat) : Server → List Input → List JSVal
  | _, [] => []
  | σ, e :: es => acceptedAt σ e ++ accepted maxHistory (step maxHistory σ e).1 es

/-- Whether an input is the disconnection of socket `c`. -/
def Input.isDisconnectOf (c : SocketId) : Input → Bool
  | .disconnect s => decide (s = c)
  | _ => false

/-- What holds of every state the server can reach: the history is within
capacity, no socket is registered twice, and every registered identifier has
been handed out already. -/
structure Server.Inv (maxHistory : Nat) (σ : Server) : Prop where
  bounded : σ.fireworksHistory.length ≤ maxHistory
  nodup : σ.sockets.Nodup
  fresh : ∀ s ∈ σ.sockets, s < σ.nextId

/-- The `launch` message that carries `fw` to socket `c`. -/
def launchMsg (fw : JSVal) (c : SocketId) : Msg :=
  { dest := c, name := "launch", data := fw }

/-! ## JavaScript numbers as the client computes with them

A number is NaN, an infinity, or a finite value.  Finite values are carried
as rationals and `+`, `-`, `*`, `/` on them are exact: rounding is not
modelled, and neither is the sign of zero.  Comparison, `Math.min`,
`Math.max`, `Math.floor` and `Math.round` are exact in the program as well. -/

/-- A JavaScript number. -/
inductive JSNum where
  | nan : JSNum
  | ninf : JSNum
  | fin (q : ℚ) : JSNum
  | pinf : JSNum
  deriving DecidableEq

/-- Unary minus. -/
def JSNum.neg : JSNum → JSNum
  | .nan => .nan
  | .ninf => .pinf
  | .fin q => .fin (-q)
  | .pinf => .ninf

/-- The infinity with the sign of `q`, or with the opposite sign when
`positive` is false; NaN when `q` is zero. -/
def JSNum.signed (positive : Bool) (q : ℚ) : JSNum :=
  if q = 0 then .nan else if (decide (0 < q)) = positive then .pinf else .ninf

/-- The operator `*` on numbers. -/
def JSNum.mul : JSNum → JSNum → JSNum
  | .nan, _ => .nan
  | _, .nan => .nan
  | .fin a, .fin b => .fin (a * b)
  | .fin a, .pinf => JSNum.signed true a
  | .fin a, .ninf => JSNum.signed false a
  | .pinf, .fin b => JSNum.signed true b
  | .ninf, .fin b => JSNum.signed false b
  | .pinf, .pinf => .pinf
  | .ninf, .ninf => .pinf
  | .pinf, .ninf => .ninf
  | .ninf, .pinf => .ninf

/-- The operator `+` on numbers. -/
def JSNum.add : JSNum → JSNum → JSNum
  | .nan, _ => .nan
  | _, .nan => .nan
  | .fin a, .fin b => .fin (a + b)
  | .pinf, .ninf => .nan
  | .ninf, .pinf => .nan
  | .pinf, _ => .pinf
  | _, .pinf => .pinf
  | .ninf, _ => .ninf
  | _, .ninf => .ninf

/-- The operator `-` on numbers. -/
def JSNum.sub (a b : JSNum) : JSNum :=
  JSNum.add a (JSNum.neg b)

/-- The operator `/` on numbers. -/
def JSNum.div : JSNum → JSNum → JSNum
  | .nan, _ => .nan
  | _, .nan => .nan
  | .fin a, .fin b => if b = 0 then JSNum.signed true a else .fin (a / b)
  | .fin _, .pinf => .fin 0
  | .fin _, .ninf => .fin 0
  | .pinf, .fin b => if b = 0 then .pinf else JSNum.signed true b
  | .ninf, .fin b => if b = 0 then .ninf else JSNum.signed false b
  | .pinf, .pinf => .nan
  | .ninf, .ninf => .nan
  | .pinf, .ninf => .nan
  | .ninf, .pinf => .nan

/-- The operator `<` on numbers; every comparison with NaN is false. -/
def JSNum.lt : JSNum → JSNum → Bool
  | .nan, _ => false
  | _, .nan => false
  | .fin a, .fin b => decide (a < b)
  | .ninf, .ninf => false
  | .ninf, _ => true
  | _, .ninf => false
  | .pinf, _ => false
  | _, .pinf => true

/-- The operator `>` on numbers. -/
def JSNum.gt (a b : JSNum) : Bool :=
  JSNum.lt b a

/-- The function `Math.min` of two arguments. -/
def JSNum.min : JSNum → JSNum → JSNum
  | .nan, _ => .nan
  | _, .nan => .nan
  | .fin a, .fin b => .fin (Min.min a b)
  | .ninf, _ => .ninf
  | _, .ninf => .ninf
  | .pinf, b => b
  | a, .pinf => a

/-- The function `Math.max` of two arguments. -/
def JSNum.max : JSNum → JSNum → JSNum
  | .nan, _ => .nan
  | _, .nan => .nan
  | .fin a, .fin b => .fin (Max.max a b)
  | .pinf, _ => .pinf
  | _, .pinf => .pinf
  | .ninf, b => b
  | a, .ninf => a

/-- The function `Math.floor`. -/
def JSNum.floor : JSNum → JSNum
  | .fin q => .fin (Int.floor q)
  | x => x

/-- The function `Math.round`: the nearest integer, halves rounded up. -/
def JSNum.round : JSNum → JSNum
  | .fin q => .fin (Int.floor (q + 1 / 2))
  | x => x

/-- How often the body of `for (let i = 0; i < count; i++)` runs; `none`
when the loop never exits. -/
def iterations : JSNum → Option Nat
  | .nan => some 0
  | .ninf => some 0
  | .fin q => some (Int.toNat (Int.ceil q))
  | .pinf => none

/-! ## The client (`public/sketch.js`) -/

/-- What the client takes from its surroundings: the canvas size (`width`,
`height`), the successive results of the generator behind p5's `random`
(each in `[0, 1)`), `Math.cos` and `Math.sin`, and the conversions of the
language (`ToNumber`, `ToString`) on the values where they are not the
identity or a constant. -/
structure Env where
  width : JSNum
  height : JSNum
  rand : Nat → ℚ
  cos : JSNum → JSNum
  sin : JSNum → JSNum
  coerceNumber : JSVal → JSNum
  coerceString : JSVal → String

/-- The conversion `Number(v)`, also applied by `*` to its operands. -/
def toNumber (env : Env) : JSVal → JSNum
  | .num q => .fin q
  | .undefined => .nan
  | .null => .fin 0
  | .bool b => .fin (if b then 1 else 0)
  | v => env.coerceNumber v

/-- The conversion `String(v)`. -/
def toStr (env : Env) : JSVal → String
  | .str s => s
  | .undefined => "undefined"
  | .null => "null"
  | .bool b => if b then "true" else "false"
  | v => env.coerceString v

/-- Property read `v.k`; `none` is the TypeError that reading a property of
`null` or `undefined` raises.  Only own data properties are modelled: the
program reads the keys `x`, `y`, `col`, `size`, `shape`, `r`, `g`, `b`, which
no array, string, number or boolean has. -/
def getProp (v : JSVal) (k : String) : Option JSVal :=
  match v with
  | .undefined => none
  | .null => none
  | .obj fields => some ((fields.lookup k).getD .undefined)
  | _ => some .undefined

/-- Whether a value is `null` or `undefined`. -/
def JSVal.nullish : JSVal → Bool
  | .undefined => true
  | .null => true
  | _ => false

/-- Optional chaining `v?.k`. -/
def optChain (v : JSVal) (k : String) : Option JSVal :=
  if v.nullish then some .undefined else getProp v k

/-- Nullish coalescing `v ?? d`. -/
def orElse (v d : JSVal) : JSVal :=
  if v.nullish then d else v

/-- The function `constrain(n, low, high)` of p5:
`Math.max(Math.min(n, high), low)`. -/
def constrain (n low high : JSNum) : JSNum :=
  JSNum.max (JSNum.min n high) low

/-- The constant `TWO_PI` of p5. -/
def TWO_PI : JSNum := .fin 6.283185307179586

/-- The call `random(high)` of p5 on the `k`-th result of the generator. -/
def random1 (env : Env) (k : Nat) (high : JSNum) : JSNum :=
  JSNum.mul (.fin (env.rand k)) high

/-- The call `random(min, max)` of p5 on the `k`-th result of the generator;
the bounds are swapped when `min > max`. -/
def random2 (env : Env) (k : Nat) (lo hi : JSNum) : JSNum :=
  if JSNum.gt lo hi then JSNum.add (JSNum.mul (.fin (env.rand k)) (JSNum.sub lo hi)) hi
  else JSNum.add (JSNum.mul (.fin (env.rand k)) (JSNum.sub hi lo)) lo

/-- The value of `color(r, g, b)` of p5, kept as the arguments of the call. -/
structure Color where
  r : JSVal
  g : JSVal
  b : JSVal

/-- One entry of `this.particles`. -/
structure Particle where
  px : JSNum
  py : JSNum
  vx : JSNum
  vy : JSNum
  drag : JSNum
  grav : JSNum
  alpha : JSNum
  size : JSNum
  deriving DecidableEq

/-- An instance of the class `Firework`. -/
structure Firework where
  x : JSNum
  y : JSNum
  col : Color
  size : JSNum
  shape : String
  baseAlpha : JSNum
  particles : List Particle
  life : JSNum
  maxLife : JSNum

/-- One pass through the body of the loop of `createParticles`, lines
239-268, for index `i`, with the generator at position `k`: the particle
pushed and the position of the generator afterwards. -/
def particleStep (env : Env) (x y size baseAlpha : JSNum) (shape : String)
    (count speed : JSNum) (i k : Nat) : Particle × Nat :=
  let angle0 := random1 env k TWO_PI
  let r0 := random2 env (k + 1) (.fin 0.6) (.fin 1.0)
  let k := k + 2
  let sel : JSNum × JSNum × Nat :=
    if shape = "ring" then (angle0, .fin 1.0, k)
    else if shape = "star" then
      let spikes : JSNum := .fin 8
      let angle :=
        JSNum.add
          (JSNum.mul
            (JSNum.div (JSNum.round (JSNum.mul (JSNum.div angle0 TWO_PI) spikes)) spikes)
            TWO_PI)
          (random2 env k (.fin (-0.08)) (.fin 0.08))
      (angle, random2 env (k + 1) (.fin 0.8) (.fin 1.0), k + 2)
    else if shape = "spiral" then
      (JSNum.mul (JSNum.mul (JSNum.div (.fin i) count) TWO_PI) (.fin 3.0),
        random2 env k (.fin 0.7) (.fin 1.0), k + 1)
    else (angle0, r0, k)
  let angle := sel.1
  let r := sel.2.1
  let k := sel.2.2
  let vx := JSNum.mul (JSNum.mul (env.cos angle) speed) r
  let vy := JSNum.mul (JSNum.mul (env.sin angle) speed) r
  ({ px := x, py := y, vx := vx, vy := vy,
     drag := random2 env k (.fin 0.97) (.fin 0.992),
     grav := JSNum.mul (random2 env (k + 1) (.fin 0.012) (.fin 0.03)) size,
     alpha := baseAlpha,
     size := JSNum.mul (random2 env (k + 2) (.fin 2.0) (.fin 4.2)) size },
   k + 3)

/-- The loop of `createParticles` for the indices `i, i + 1, ...`, `n` of
them: the particles pushed, in order, and the generator's final position. -/
def particleLoop (env : Env) (x y size baseAlpha : JSNum) (shape : String)
    (count speed : JSNum) : Nat → Nat → Nat → List Particle × Nat
  | 0, _, k => ([], k)
  | n + 1, i, k =>
      let p := particleStep env x y size baseAlpha shape count speed i k
      let rest := particleLoop env x y size baseAlpha shape count speed n (i + 1) p.2
      (p.1 :: rest.1, rest.2)

/-- The method `Firework.createParticles`, lines 234-270, on an empty
`this.particles`; `none` when the loop never exits. -/
def createParticles (env : Env) (x y size baseAlpha : JSNum) (shape : String) (k : Nat) :
    Option (List Particle × Nat) :=
  let count := JSNum.floor (JSNum.mul (.fin 80) size)
  let speed := JSNum.mul (.fin 2.2) size
  (iterations count).map
    (fun n => particleLoop env x y size baseAlpha shape count speed n 0 k)

/-- The constructor of `Firework`, lines 217-232. -/
def Firework.new (env : Env) (x y : JSNum) (col : Color) (size : JSNum) (shape : String)
    (isHistory : Bool) (k : Nat) : Option (Firework × Nat) :=
  let baseAlpha : JSNum := if isHistory then .fin 140 else .fin 220
  (createParticles env x y size baseAlpha shape k).map
    (fun ps =>
      ({ x := x, y := y, col := col, size := size, shape := shape, baseAlpha := baseAlpha,
         particles := ps.1, life := .fin 0, maxLife := .fin 90 }, ps.2))

/-- The client's mutable state: the `fireworks` array and the position of
the random generator. -/
structure Client where
  fireworks : List Firework
  cursor : Nat

/-- The function `spawnFireworkFromNetwork`, lines 173-190; `none` when the
call does not return normally. -/
def spawnFireworkFromNetwork (env : Env) (st : Client) (fw : JSVal) (isHistory : Bool) :
    Option Client :=
  if rejects fw then some st
  else do
    let fx ← getProp fw "x"
    let x := JSNum.mul (toNumber env (orElse fx (.num 0.5))) env.width
    let fy ← getProp fw "y"
    let y := JSNum.mul (toNumber env (orElse fy (.num 0.5))) env.height
    let col ← getProp fw "col"
    let cr ← optChain col "r"
    let cg ← optChain col "g"
    let cb ← optChain col "b"
    let c : Color := { r := orElse cr (.num 255), g := orElse cg (.num 255), b := orElse cb (.num 255) }
    let fsize ← getProp fw "size"
    let size := constrain (toNumber env (orElse fsize (.num 1.0))) (.fin 0.4) (.fin 2.2)
    let fshape ← getProp fw "shape"
    let shape := toStr env (orElse fshape (.str "burst"))
    let made ← Firework.new env x y c size shape isHistory st.cursor
    some { fireworks := st.fireworks ++ [made.1], cursor := made.2 }

/-- The client's `socket.on("launch", ...)` callback, lines 60-62. -/
def onLaunch (env : Env) (st : Client) (fw : JSVal) : Option Client :=
  spawnFireworkFromNetwork env st fw false

/-- The client's `socket.on("history", ...)` callback, lines 51-58. -/
def onHistory (env : Env) (st : Client) (history : JSVal) : Option Client :=
  match history with
  | .arr items => items.foldlM (fun s fw => spawnFireworkFromNetwork env s fw true) st
  | _ => some st

/-- Specification of the default shape, written from the words of the
claim and not from the code: `n` particles, the generator at position `k`,
each with a random angle and a radius factor drawn from `[0.6, 1.0]`, then
its drag, gravity and size. -/
def burstParticles (env : Env) (x y size baseAlpha speed : JSNum) : Nat → Nat → List Particle
  | 0, _ => []
  | n + 1, k =>
      let angle := JSNum.mul (.fin (env.rand k)) TWO_PI
      let r := JSNum.add (JSNum.mul (.fin (env.rand (k + 1))) (.fin 0.4)) (.fin 0.6)
      { px := x, py := y,
        vx := JSNum.mul (JSNum.mul (env.cos angle) speed) r,
        vy := JSNum.mul (JSNum.mul (env.sin angle) speed) r,
        drag := random2 env (k + 2) (.fin 0.97) (.fin 0.992),
        grav := JSNum.mul (random2 env (k + 3) (.fin 0.012) (.fin 0.03)) size,
        alpha := baseAlpha,
        size := JSNum.mul (random2 env (k + 4) (.fin 2.0) (.fin 4.2)) size }
        :: burstParticles env x y size baseAlpha speed n (k + 5)

/-- The events that a message carries: the entries of a `history` array,
or the one payload of a `launch`. -/
def Msg.events (m : Msg) : List JSVal :=
  if m.name = "history" then
    match m.data with
    | .arr items => items
    | _ => []
  else if m.name = "launch" then [m.data]
  else []

/-- The events delivered to socket `c` by `acts`, in the order of delivery. -/
def delivered (c : SocketId) (acts : List Action) : List JSVal :=
  ((received c acts).map Msg.events).foldr (fun es acc => es ++ acc) []

/-- The `launch` input of a sender and its payload. -/
def launchOf (p : SocketId × JSVal) : Input :=
  Input.launch p.1 p.2

/-- The value that the property read `v.k` yields when it does not raise. -/
def JSVal.prop (v : JSVal) (k : String) : JSVal :=
  (getProp v k).getD .undefined

/-- The value that `v?.k` yields when it does not raise. -/
def JSVal.chain (v : JSVal) (k : String) : JSVal :=
  (optChain v k).getD .undefined

/-- Specification of a fully-defaulted Event, from the words of the spec, on
the field names the program uses: position `(0.5, 0.5)`, colour
`(255, 255, 255)`, shape `burst`, size `1.0`. -/
def FullyDefaulted (e : JSVal) : Prop :=
  e.prop "x" = .num 0.5 ∧ e.prop "y" = .num 0.5
    ∧ (e.prop "col").chain "r" = .num 255 ∧ (e.prop "col").chain "g" = .num 255
    ∧ (e.prop "col").chain "b" = .num 255
    ∧ e.prop "shape" = .str "burst" ∧ e.prop "size" = .num 1.0

/-! ## Sample inputs -/

/-- A launch payload that carries only a timestamp. -/
def sampleEvent (t : Nat) : JSVal :=
  JSVal.obj [("t", JSVal.num t)]

/-- One hundred and twenty-five launch payloads, numbered from zero. -/
def sampleLaunches : List JSVal :=
  (List.range 125).map sampleEvent

/-- The payload `{size: 99}`. -/
def oversized : JSVal :=
  JSVal.obj [("size", JSVal.num 99)]

/-- The payload `{size: -5}`. -/
def undersized : JSVal :=
  JSVal.obj [("size", JSVal.num (-5))]

/-- The payload `{}`. -/
def emptyRecord : JSVal :=
  JSVal.obj []

/-- The payload `{x: 0.25, y: 0.75, size: 1.5, shape: "ring",
col: {r: 10, g: 20, b: 30}}`. -/
def tinted : JSVal :=
  JSVal.obj
    [("x", JSVal.num 0.25), ("y", JSVal.num 0.75), ("size", JSVal.num 1.5),
      ("shape", JSVal.str "ring"),
      ("col", JSVal.obj [("r", JSVal.num 10), ("g", JSVal.num 20), ("b", JSVal.num 30)])]

/-- The payload `{col: {r: 10, b: null}}`: a colour with one channel present,
one missing and one `null`. -/
def redOnly : JSVal :=
  JSVal.obj [("col", JSVal.obj [("r", JSVal.num 10), ("b", JSVal.null)])]

/-- The payload `{col: "red"}`: a colour that is not a record. -/
def namedColour : JSVal :=
  JSVal.obj [("col", JSVal.str "red")]

/-- An event with a shape outside the enumeration and no other field. -/
def heartEvent : JSVal :=
  JSVal.obj [("shape", JSVal.str "heart")]

/-- A sample environment of the client: an 800 by 600 canvas and a generator
that cycles through ten values of `[0, 1)`.  The cosine and sine are
stand-ins; no statement below depends on them. -/
def sampleEnv : Env :=
  { width := .fin 800
    height := .fin 600
    rand := fun k => ((k % 10 : Nat) : ℚ) / 10
    cos := fun _ => .fin 1
    sin := fun _ => .fin 0
    coerceNumber := fun _ => .nan
    coerceString := fun _ => "[object Object]" }

/-- A client that has spawned nothing yet. -/
def Client.init : Client :=
  { fireworks := [], cursor := 0 }

/-! ## The history buffer -/

theorem lastN_length {α : Type} (n : Nat) (xs : List α) :
    (lastN n xs).length = min xs.length n := by
  unfold lastN
  rw [List.length_drop]
  omega

theorem lastN_of_length_le {α : Type} (n : Nat) (xs : List α) (h : xs.length ≤ n) :
    lastN n xs = xs := by
  unfold lastN
  have : xs.length - n = 0 := by omega
  rw [this, List.drop_zero]

theorem lastN_zero {α : Type} (xs : List α) : lastN 0 xs = [] := by
  simp [lastN]

theorem lastN_snoc {α : Type} (n : Nat) (xs : List α) (x : α) :
    lastN n (lastN n xs ++ [x]) = lastN n (xs ++ [x]) := by
  by_cases h : xs.length ≤ n
  · rw [lastN_of_length_le n xs h]
  · rcases Nat.eq_zero_or_pos n with h0 | hpos
    · subst h0
      rw [lastN_zero, lastN_zero]
    · have hlen : (lastN n xs).length = n := by rw [lastN_length]; omega
      have hlen2 : (List.drop (xs.length - n) xs).length = n := hlen
      unfold lastN
      simp only [List.length_append, List.length_singleton, hlen2]
      rw [List.drop_append_of_le_length (by omega), List.drop_append_of_le_length (by omega),
        List.drop_drop]
      congr 2
      omega

/-- Pushing and then shifting when over capacity keeps the last `n`. -/
theorem push_shift_eq (n : Nat) (h : List JSVal) (fw : JSVal) (hle : h.length ≤ n) :
    (if decide ((h ++ [fw]).length > n) then (h ++ [fw]).tail else h ++ [fw])
      = lastN n (h ++ [fw]) := by
  by_cases hov : (h ++ [fw]).length > n
  · simp only [hov, decide_True, if_true]
    unfold lastN
    have : (h ++ [fw]).length - n = 1 := by
      simp only [List.length_append, List.length_singleton] at hov ⊢
      omega
    rw [this, List.drop_one]
  · simp only [hov, decide_False]
    rw [lastN_of_length_le]
    · rfl
    · omega

theorem launchHandler_rejected (n : Nat) (σ : Server) (fw : JSVal) (h : rejects fw = true) :
    launchHandler n σ fw = (σ, []) := by
  simp [launchHandler, h]

theorem launchHandler_history (n : Nat) (σ : Server) (fw : JSVal) (h : rejects fw = false)
    (hle : σ.fireworksHistory.length ≤ n) :
    (launchHandler n σ fw).1.fireworksHistory = lastN n (σ.fireworksHistory ++ [fw]) := by
  simp only [launchHandler, h]
  exact push_shift_eq n σ.fireworksHistory fw hle

theorem launchHandler_sockets (n : Nat) (σ : Server) (fw : JSVal) :
    (launchHandler n σ fw).1.sockets = σ.sockets
      ∧ (launchHandler n σ fw).1.nextId = σ.nextId := by
  unfold launchHandler
  split <;> simp

theorem handleAll_history (n : Nat) (fws : List JSVal) :
    ∀ (σ : Server), σ.fireworksHistory.length ≤ n → (∀ fw ∈ fws, rejects fw = false) →
      (handleAll n σ fws).fireworksHistory = lastN n (σ.fireworksHistory ++ fws) := by
  induction fws with
  | nil =>
      intro σ hle _
      simp [handleAll, lastN_of_length_le n _ hle]
  | cons fw rest ih =>
      intro σ hle hacc
      have hfw : rejects fw = false := hacc fw (List.mem_cons_self _ _)
      have hstep := launchHandler_history n σ fw hfw hle
      have hlen : (launchHandler n σ fw).1.fireworksHistory.length ≤ n := by
        rw [hstep, lastN_length]; omega
      have := ih (launchHandler n σ fw).1 hlen (fun x hx => hacc x (List.mem_cons_of_mem _ hx))
      simp only [handleAll, List.foldl_cons] at this ⊢
      rw [this, hstep]
      have key : ∀ (ys xs : List JSVal), lastN n (lastN n xs ++ ys) = lastN n (xs ++ ys) := by
        intro ys
        induction ys using List.reverseRecOn with
        | nil =>
            intro xs
            simp only [List.append_nil]
            exact lastN_of_length_le n _ (by rw [lastN_length]; omega)
        | append_singleton ys y ihy =>
            intro xs
            rw [← List.append_assoc, ← List.append_assoc, ← lastN_snoc n (lastN n xs ++ ys),
              ihy xs, lastN_snoc]
      rw [key, List.append_assoc, List.singleton_append]

/-! ## Actions and messages -/

theorem received_append (c : SocketId) (xs ys : List Action) :
    received c (xs ++ ys) = received c xs ++ received c ys := by
  induction xs with
  | nil => rfl
  | cons a rest ih =>
      cases a with
      | push fw => simpa [received] using ih
      | shift => simpa [received] using ih
      | send m =>
          by_cases h : m.dest = c <;> simp [received, h, ih]

theorem pushes_append (xs ys : List Action) :
    pushes (xs ++ ys) = pushes xs ++ pushes ys := by
  induction xs with
  | nil => rfl
  | cons a rest ih =>
      cases a <;> simp [pushes, ih]

theorem received_emit_not_mem (c : SocketId) (name : String) (data : JSVal) :
    ∀ (ss : List SocketId), c ∉ ss →
      received c (ss.map (fun s => Action.send { dest := s, name := name, data := data })) = [] := by
  intro ss
  induction ss with
  | nil => intro _; rfl
  | cons s rest ih =>
      intro hc
      have h1 : s ≠ c := fun h => hc (by simp [h])
      have h2 : c ∉ rest := fun h => hc (List.mem_cons_of_mem _ h)
      simp [received, h1, ih h2]

theorem received_emit_mem (c : SocketId) (name : String) (data : JSVal) :
    ∀ (ss : List SocketId), ss.Nodup → c ∈ ss →
      received c (ss.map (fun s => Action.send { dest := s, name := name, data := data }))
        = [{ dest := c, name := name, data := data }] := by
  intro ss
  induction ss with
  | nil => intro _ hc; simp at hc
  | cons s rest ih =>
      intro hnd hc
      rw [List.nodup_cons] at hnd
      by_cases hs : s = c
      · subst hs
        simp [received, received_emit_not_mem s name data rest hnd.1]
      · have hc2 : c ∈ rest := by
          rcases List.mem_cons.mp hc with h | h
          · exact absurd h.symm hs
          · exact h
        simp [received, hs, ih hnd.2 hc2]

theorem pushes_emit (name : String) (data : JSVal) (ss : List SocketId) :
    pushes (ss.map (fun s => Action.send { dest := s, name := name, data := data })) = [] := by
  induction ss with
  | nil => rfl
  | cons s rest ih => simp [pushes, ih]

/-- What an accepted launch does: the push, the shift when over capacity,
then the fan-out. -/
theorem launchHandler_accepted (n : Nat) (σ : Server) (fw : JSVal) (h : rejects fw = false) :
    launchHandler n σ fw =
      ({ σ with fireworksHistory :=
            if decide ((σ.fireworksHistory ++ [fw]).length > n)
            then (σ.fireworksHistory ++ [fw]).tail else σ.fireworksHistory ++ [fw] },
        [Action.push fw]
          ++ (if decide ((σ.fireworksHistory ++ [fw]).length > n) then [Action.shift] else [])
          ++ σ.sockets.map (fun s => Action.send (launchMsg fw s))) := by
  simp [launchHandler, h, ioEmit, launchMsg]

theorem launchHandler_received (n : Nat) (σ : Server) (fw : JSVal) (h : rejects fw = false)
    (c : SocketId) (hnd : σ.sockets.Nodup) :
    received c (launchHandler n σ fw).2 = if c ∈ σ.sockets then [launchMsg fw c] else [] := by
  rw [launchHandler_accepted n σ fw h]
  simp only [received_append]
  have h1 : received c [Action.push fw] = [] := rfl
  have h2 : received c
      (if decide ((σ.fireworksHistory ++ [fw]).length > n) then [Action.shift] else []) = [] := by
    split <;> rfl
  rw [h1, h2]
  by_cases hc : c ∈ σ.sockets
  · simp only [hc, if_true, List.nil_append]
    exact received_emit_mem c "launch" fw σ.sockets hnd hc
  · simp only [hc, if_false, List.nil_append]
    exact received_emit_not_mem c "launch" fw σ.sockets hc

theorem launchHandler_pushes (n : Nat) (σ : Server) (fw : JSVal) (h : rejects fw = false) :
    pushes (launchHandler n σ fw).2 = [fw] := by
  rw [launchHandler_accepted n σ fw h]
  simp only [pushes_append]
  have h2 : pushes
      (if decide ((σ.fireworksHistory ++ [fw]).length > n) then [Action.shift] else []) = [] := by
    split <;> rfl
  rw [h2]
  have h3 := pushes_emit "launch" fw σ.sockets
  simp only [launchMsg]
  rw [h3]
  rfl

/-- An accepted payload ends up at the tail of the history, as it came. -/
theorem launchHandler_last (σ : Server) (fw : JSVal) (h : rejects fw = false) :
    (launchHandler MAX_HISTORY σ fw).1.fireworksHistory.getLast? = some fw := by
  rw [launchHandler_accepted MAX_HISTORY σ fw h]
  show (if decide ((σ.fireworksHistory ++ [fw]).length > MAX_HISTORY)
    then (σ.fireworksHistory ++ [fw]).tail else σ.fireworksHistory ++ [fw]).getLast? = some fw
  by_cases hov : (σ.fireworksHistory ++ [fw]).length > MAX_HISTORY
  · simp only [hov, decide_True, if_true]
    cases hh : σ.fireworksHistory with
    | nil =>
        rw [hh] at hov
        simp [MAX_HISTORY] at hov
    | cons a rest =>
        simp
  · simp only [hov, decide_False]
    simp

/-- Every message that an accepted launch sends carries the payload as it
came. -/
theorem launchHandler_sends (n : Nat) (σ : Server) (fw : JSVal) (h : rejects fw = false)
    (m : Msg) (hm : Action.send m ∈ (launchHandler n σ fw).2) :
    m.name = "launch" ∧ m.data = fw ∧ m.dest ∈ σ.sockets := by
  rw [launchHandler_accepted n σ fw h] at hm
  simp only [List.mem_append, List.mem_singleton, List.mem_map] at hm
  rcases hm with (hm | hm) | ⟨c, hc, hm⟩
  · cases hm
  · split at hm
    · simp at hm
    · simp at hm
  · injection hm with hm
    subst hm
    exact ⟨rfl, rfl, hc⟩

/-! ## Invariant of the reachable states -/

theorem Server.init_inv (n : Nat) : Server.Inv n Server.init :=
  { bounded := by simp [Server.init]
    nodup := by simp [Server.init]
    fresh := by simp [Server.init] }

theorem step_inv (n : Nat) (σ : Server) (e : Input) (hinv : Server.Inv n σ) :
    Server.Inv n (step n σ e).1 := by
  cases e with
  | connect =>
      refine ⟨hinv.bounded, ?_, ?_⟩
      · show (σ.sockets ++ [σ.nextId]).Nodup
        rw [List.nodup_append]
        refine ⟨hinv.nodup, List.nodup_singleton _, ?_⟩
        intro a ha hb
        rw [List.mem_singleton] at hb
        subst hb
        exact absurd (hinv.fresh _ ha) (lt_irrefl _)
      · intro s hs
        have hs2 : s ∈ σ.sockets ++ [σ.nextId] := hs
        show s < σ.nextId + 1
        rcases List.mem_append.mp hs2 with h | h
        · exact Nat.lt_succ_of_lt (hinv.fresh s h)
        · rw [List.mem_singleton] at h
          rw [h]
          exact Nat.lt_succ_self _
  | launch s fw =>
      by_cases hs : s ∈ σ.sockets
      · simp only [step, hs, if_true]
        by_cases hr : rejects fw = true
        · rw [launchHandler_rejected n σ fw hr]
          exact hinv
        · have hr2 : rejects fw = false := by simpa using hr
          have hh := launchHandler_history n σ fw hr2 hinv.bounded
          have hs2 := launchHandler_sockets n σ fw
          refine ⟨?_, ?_, ?_⟩
          · rw [hh, lastN_length]; omega
          · rw [hs2.1]; exact hinv.nodup
          · rw [hs2.1, hs2.2]; exact hinv.fresh
      · simp only [step, hs, if_false]
        exact hinv
  | disconnect s =>
      by_cases hs : s ∈ σ.sockets
      · simp only [step, hs, if_true, disconnectHandler]
        refine ⟨hinv.bounded, ?_, ?_⟩
        · exact hinv.nodup.filter _
        · intro c hc
          exact hinv.fresh c (List.mem_of_mem_filter hc)
      · simp only [step, hs, if_false]
        exact hinv

theorem run_inv (n : Nat) (trace : List Input) :
    ∀ (σ : Server), Server.Inv n σ → Server.Inv n (run n σ trace).1 := by
  induction trace with
  | nil => intro σ h; exact h
  | cons e es ih =>
      intro σ h
      exact ih _ (step_inv n σ e h)

theorem run_append (n : Nat) (xs ys : List Input) :
    ∀ (σ : Server), run n σ (xs ++ ys)
      = ((run n (run n σ xs).1 ys).1, (run n σ xs).2 ++ (run n (run n σ xs).1 ys).2) := by
  induction xs with
  | nil => intro σ; simp [run]
  | cons e es ih =>
      intro σ
      have h := ih (step n σ e).1
      rw [List.cons_append]
      simp only [run]
      rw [h, List.append_assoc]

/-! ## Traces -/

theorem step_history (n : Nat) (σ : Server) (e : Input) (hinv : Server.Inv n σ) :
    (step n σ e).1.fireworksHistory = lastN n (σ.fireworksHistory ++ acceptedAt σ e) := by
  have hsame : σ.fireworksHistory = lastN n (σ.fireworksHistory ++ []) := by
    rw [List.append_nil, lastN_of_length_le n _ hinv.bounded]
  cases e with
  | connect => exact hsame
  | disconnect s =>
      by_cases hs : s ∈ σ.sockets
      · simp only [step, hs, if_true, disconnectHandler, acceptedAt]
        exact hsame
      · simp only [step, hs, if_false, acceptedAt]
        exact hsame
  | launch s fw =>
      by_cases hs : s ∈ σ.sockets
      · by_cases hr : rejects fw = true
        · simp only [step, hs, if_true, acceptedAt, hr, launchHandler_rejected n σ fw hr]
          simpa using hsame
        · have hr2 : rejects fw = false := by simpa using hr
          simp only [step, hs, if_true, acceptedAt, hr2, and_self]
          exact launchHandler_history n σ fw hr2 hinv.bounded
      · simp only [step, hs, if_false, acceptedAt, false_and]
        exact hsame

theorem step_pushes (n : Nat) (σ : Server) (e : Input) :
    pushes (step n σ e).2 = acceptedAt σ e := by
  cases e with
  | connect => rfl
  | disconnect s =>
      by_cases hs : s ∈ σ.sockets
      · simp only [step, hs, if_true, disconnectHandler, acceptedAt]; rfl
      · simp only [step, hs, if_false, acceptedAt]; rfl
  | launch s fw =>
      by_cases hs : s ∈ σ.sockets
      · by_cases hr : rejects fw = true
        · simp only [step, hs, if_true, acceptedAt, hr, launchHandler_rejected n σ fw hr]
          simp [pushes]
        · have hr2 : rejects fw = false := by simpa using hr
          simp only [step, hs, if_true, acceptedAt, hr2, and_self]
          exact launchHandler_pushes n σ fw hr2
      · simp only [step, hs, if_false, acceptedAt, false_and]
        rfl

theorem lastN_append_left {α : Type} (n : Nat) (xs ys : List α) :
    lastN n (lastN n xs ++ ys) = lastN n (xs ++ ys) := by
  induction ys using List.reverseRecOn generalizing xs with
  | nil =>
      simp only [List.append_nil]
      exact lastN_of_length_le n _ (by rw [lastN_length]; omega)
  | append_singleton ys y ihy =>
      rw [← List.append_assoc, ← List.append_assoc, ← lastN_snoc n (lastN n xs ++ ys),
        ihy xs, lastN_snoc]

/-- The history after a trace is the last `n` of what was there followed by
what the trace had accepted. -/
theorem run_history (n : Nat) (trace : List Input) :
    ∀ (σ : Server), Server.Inv n σ →
      (run n σ trace).1.fireworksHistory
        = lastN n (σ.fireworksHistory ++ accepted n σ trace) := by
  induction trace with
  | nil =>
      intro σ hinv
      simp only [run, accepted, List.append_nil]
      rw [lastN_of_length_le n _ hinv.bounded]
  | cons e es ih =>
      intro σ hinv
      have h1 := ih (step n σ e).1 (step_inv n σ e hinv)
      simp only [run, accepted]
      rw [h1, step_history n σ e hinv, lastN_append_left, List.append_assoc]

/-- The pushes of a trace are exactly the payloads it accepts. -/
theorem run_pushes (n : Nat) (trace : List Input) :
    ∀ (σ : Server), pushes (run n σ trace).2 = accepted n σ trace := by
  induction trace with
  | nil => intro σ; rfl
  | cons e es ih =>
      intro σ
      simp only [run, accepted, pushes_append, step_pushes, ih]

theorem step_nextId_le (n : Nat) (σ : Server) (e : Input) :
    σ.nextId ≤ (step n σ e).1.nextId := by
  cases e with
  | connect => exact Nat.le_succ _
  | disconnect s =>
      by_cases hs : s ∈ σ.sockets
      · simp only [step, hs, if_true, disconnectHandler]; exact le_refl _
      · simp only [step, hs, if_false]; exact le_refl _
  | launch s fw =>
      by_cases hs : s ∈ σ.sockets
      · simp only [step, hs, if_true]
        rw [(launchHandler_sockets n σ fw).2]
      · simp only [step, hs, if_false]; exact le_refl _

theorem run_nextId_le (n : Nat) (trace : List Input) :
    ∀ (σ : Server), σ.nextId ≤ (run n σ trace).1.nextId := by
  induction trace with
  | nil => intro σ; exact le_refl _
  | cons e es ih =>
      intro σ
      exact le_trans (step_nextId_le n σ e) (ih _)

/-- A step sends nothing to an identifier that has not been handed out. -/
theorem step_received_fresh (n : Nat) (σ : Server) (e : Input) (hinv : Server.Inv n σ)
    (c : SocketId) (hc : (step n σ e).1.nextId ≤ c) :
    received c (step n σ e).2 = [] := by
  have hnot : c ∉ σ.sockets := by
    intro h
    have h1 : (c : Nat) < σ.nextId := hinv.fresh c h
    have h2 : (σ.nextId : Nat) ≤ (step n σ e).1.nextId := step_nextId_le n σ e
    have h3 : ((step n σ e).1.nextId : Nat) ≤ c := hc
    exact absurd (Nat.lt_of_lt_of_le h1 (Nat.le_trans h2 h3)) (Nat.lt_irrefl _)
  cases e with
  | connect =>
      have hne : σ.nextId ≠ c := by
        have : σ.nextId + 1 ≤ c := hc
        omega
      simp [step, connectionHandler, socketEmit, received, hne]
  | disconnect s =>
      by_cases hs : s ∈ σ.sockets
      · simp only [step, hs, if_true, disconnectHandler]; rfl
      · simp only [step, hs, if_false]; rfl
  | launch s fw =>
      by_cases hs : s ∈ σ.sockets
      · simp only [step, hs, if_true]
        by_cases hr : rejects fw = true
        · rw [launchHandler_rejected n σ fw hr]; rfl
        · have hr2 : rejects fw = false := by simpa using hr
          rw [launchHandler_received n σ fw hr2 c hinv.nodup]
          simp [hnot]
      · simp only [step, hs, if_false]; rfl

theorem run_received_fresh (n : Nat) (trace : List Input) :
    ∀ (σ : Server), Server.Inv n σ → ∀ (c : SocketId), (run n σ trace).1.nextId ≤ c →
      received c (run n σ trace).2 = [] := by
  induction trace with
  | nil => intro σ _ c _; rfl
  | cons e es ih =>
      intro σ hinv c hc
      have hc1 : (run n (step n σ e).1 es).1.nextId ≤ c := hc
      have h1 := ih (step n σ e).1 (step_inv n σ e hinv) c hc1
      have h2 := step_received_fresh n σ e hinv c
        (le_trans (run_nextId_le n es (step n σ e).1) hc1)
      simp only [run, received_append, h1, h2, List.append_nil]

/-- A step that does not disconnect the connected socket `c` keeps it
connected and sends it exactly the payload accepted at that step, if any. -/
theorem step_received_connected (n : Nat) (σ : Server) (e : Input) (hinv : Server.Inv n σ)
    (c : SocketId) (hc : c ∈ σ.sockets) (he : Input.isDisconnectOf c e = false) :
    c ∈ (step n σ e).1.sockets
      ∧ received c (step n σ e).2 = (acceptedAt σ e).map (fun fw => launchMsg fw c) := by
  cases e with
  | connect =>
      refine ⟨?_, ?_⟩
      · show c ∈ σ.sockets ++ [σ.nextId]
        exact List.mem_append_left _ hc
      · have hne : σ.nextId ≠ c := by
          have hlt : (c : Nat) < σ.nextId := hinv.fresh c hc
          exact fun h => absurd (h ▸ hlt) (Nat.lt_irrefl _)
        simp [step, connectionHandler, socketEmit, received, hne, acceptedAt]
  | disconnect s =>
      have hsc : s ≠ c := by simpa [Input.isDisconnectOf] using he
      by_cases hs : s ∈ σ.sockets
      · simp only [step, hs, if_true, disconnectHandler, acceptedAt]
        refine ⟨?_, rfl⟩
        rw [List.mem_filter]
        refine ⟨hc, ?_⟩
        simpa using fun h => hsc h.symm
      · simp only [step, hs, if_false, acceptedAt]
        exact ⟨hc, rfl⟩
  | launch s fw =>
      by_cases hs : s ∈ σ.sockets
      · simp only [step, hs, if_true, acceptedAt]
        by_cases hr : rejects fw = true
        · rw [launchHandler_rejected n σ fw hr]
          simp [hr, hc, received]
        · have hr2 : rejects fw = false := by simpa using hr
          refine ⟨?_, ?_⟩
          · rw [(launchHandler_sockets n σ fw).1]; exact hc
          · rw [launchHandler_received n σ fw hr2 c hinv.nodup]
            simp [hc, hr2]
      · simp only [step, hs, if_false, acceptedAt, false_and]
        exact ⟨hc, rfl⟩

/-- A socket that stays connected receives, live and in order, exactly the
payloads accepted meanwhile, each once. -/
theorem run_received_connected (n : Nat) (trace : List Input) :
    ∀ (σ : Server), Server.Inv n σ → ∀ (c : SocketId), c ∈ σ.sockets →
      (∀ e ∈ trace, Input.isDisconnectOf c e = false) →
      received c (run n σ trace).2 = (accepted n σ trace).map (fun fw => launchMsg fw c) := by
  induction trace with
  | nil => intro σ _ c _ _; rfl
  | cons e es ih =>
      intro σ hinv c hc hstay
      have h1 := step_received_connected n σ e hinv c hc (hstay e (List.mem_cons_self _ _))
      have h2 := ih (step n σ e).1 (step_inv n σ e hinv) c h1.1
        (fun x hx => hstay x (List.mem_cons_of_mem _ hx))
      simp only [run, accepted, received_append, List.map_append, h1.2, h2]

/-! ## The claims about the server -/

/-- C1. Bounded FIFO history: starting from an empty history, after the launch
handler has handled a sequence of accepted payloads one after another (with
`MAX_HISTORY = 120`) the history holds exactly the last `min N 120` of them in
arrival order; its length is `min N 120`; the length is at most 120 after
every handler step (and in every state the server can reach); and handling an
accepted launch on a full history drops the oldest entry and puts the new
payload at the tail. -/
theorem C1_bounded_fifo_history (σ : Server) (fws : List JSVal)
    (hempty : σ.fireworksHistory = []) (hacc : ∀ fw ∈ fws, rejects fw = false) :
    (handleAll MAX_HISTORY σ fws).fireworksHistory = fws.drop (fws.length - 120)
      ∧ (handleAll MAX_HISTORY σ fws).fireworksHistory.length = min fws.length 120
      ∧ (∀ k, (handleAll MAX_HISTORY σ (fws.take k)).fireworksHistory.length ≤ 120)
      ∧ (∀ trace, (run MAX_HISTORY Server.init trace).1.fireworksHistory.length ≤ 120)
      ∧ (∀ (τ : Server) (fw : JSVal), rejects fw = false → τ.fireworksHistory.length = 120 →
          (launchHandler MAX_HISTORY τ fw).1.fireworksHistory
            = τ.fireworksHistory.tail ++ [fw]) := by
  have hle : σ.fireworksHistory.length ≤ MAX_HISTORY := by simp [hempty]
  have hall : ∀ (gs : List JSVal), (∀ fw ∈ gs, rejects fw = false) →
      (handleAll MAX_HISTORY σ gs).fireworksHistory = lastN 120 gs := by
    intro gs hgs
    have := handleAll_history MAX_HISTORY gs σ hle hgs
    rw [hempty, List.nil_append] at this
    exact this
  refine ⟨hall fws hacc, ?_, ?_, ?_, ?_⟩
  · rw [hall fws hacc, lastN_length]
  · intro k
    rw [hall (fws.take k) (fun fw h => hacc fw (List.mem_of_mem_take h)), lastN_length]
    omega
  · intro trace
    exact (run_inv MAX_HISTORY trace Server.init (Server.init_inv MAX_HISTORY)).bounded
  · intro τ fw hfw hfull
    have hτ : τ.fireworksHistory.length ≤ MAX_HISTORY := by
      rw [hfull]; exact le_refl _
    rw [launchHandler_history MAX_HISTORY τ fw hfw hτ]
    unfold lastN
    have h1 : (τ.fireworksHistory ++ [fw]).length - MAX_HISTORY = 1 := by
      simp [hfull, MAX_HISTORY]
    rw [h1, List.drop_one]
    cases hh : τ.fireworksHistory with
    | nil => rw [hh] at hfull; simp at hfull
    | cons a rest => rfl

/-- Witness of C1: from the initial state, 125 accepted payloads leave the
last 120 of them, oldest first. -/
theorem C1_bounded_fifo_history_witness :
    (Server.init.fireworksHistory = [] ∧ ∀ fw ∈ sampleLaunches, rejects fw = false)
      ∧ (handleAll MAX_HISTORY Server.init sampleLaunches).fireworksHistory
          = sampleLaunches.drop (sampleLaunches.length - 120)
      ∧ (handleAll MAX_HISTORY Server.init sampleLaunches).fireworksHistory.length
          = min sampleLaunches.length 120 := by
  have hacc : ∀ fw ∈ sampleLaunches, rejects fw = false := by
    intro fw h
    obtain ⟨i, _, rfl⟩ := List.mem_map.mp h
    rfl
  have h := C1_bounded_fifo_history Server.init sampleLaunches rfl hacc
  exact ⟨⟨rfl, hacc⟩, h.1, h.2.1⟩

/-- C2. Fan-out inclusion: in every state the server can reach, when a
connected socket `s` sends an accepted `launch` payload, the handler sends
exactly one `launch` message carrying that payload to every connected socket,
`s` among them; every message it sends is such a message; a socket that is
not connected receives nothing; and had some other socket `d` disconnected
just before, `d` would receive nothing and every other socket exactly what it
receives otherwise. -/
theorem C2_fanout_inclusion (trace : List Input) (s : SocketId) (fw : JSVal)
    (hs : s ∈ (run MAX_HISTORY Server.init trace).1.sockets) (hacc : rejects fw = false) :
    (∀ c, c ∈ (run MAX_HISTORY Server.init trace).1.sockets →
        received c (step MAX_HISTORY (run MAX_HISTORY Server.init trace).1 (Input.launch s fw)).2
          = [launchMsg fw c])
      ∧ received s (step MAX_HISTORY (run MAX_HISTORY Server.init trace).1 (Input.launch s fw)).2
          = [launchMsg fw s]
      ∧ (∀ c, c ∉ (run MAX_HISTORY Server.init trace).1.sockets →
          received c (step MAX_HISTORY (run MAX_HISTORY Server.init trace).1 (Input.launch s fw)).2
            = [])
      ∧ (∀ m, Action.send m
            ∈ (step MAX_HISTORY (run MAX_HISTORY Server.init trace).1 (Input.launch s fw)).2 →
          m.name = "launch" ∧ m.data = fw
            ∧ m.dest ∈ (run MAX_HISTORY Server.init trace).1.sockets)
      ∧ (∀ d, d ≠ s →
          received d
            (step MAX_HISTORY
              (step MAX_HISTORY (run MAX_HISTORY Server.init trace).1 (Input.disconnect d)).1
              (Input.launch s fw)).2 = []
          ∧ ∀ c, c ≠ d →
            received c
              (step MAX_HISTORY
                (step MAX_HISTORY (run MAX_HISTORY Server.init trace).1 (Input.disconnect d)).1
                (Input.launch s fw)).2
              = received c
                  (step MAX_HISTORY (run MAX_HISTORY Server.init trace).1 (Input.launch s fw)).2) := by
  have hinv := run_inv MAX_HISTORY trace Server.init (Server.init_inv MAX_HISTORY)
  generalize (run MAX_HISTORY Server.init trace).1 = σ at hs hinv ⊢
  have hstep : ∀ (τ : Server), τ.sockets.Nodup → s ∈ τ.sockets → ∀ c,
      received c (step MAX_HISTORY τ (Input.launch s fw)).2
        = if c ∈ τ.sockets then [launchMsg fw c] else [] := by
    intro τ hnd hsτ c
    simp only [step, hsτ, if_true]
    exact launchHandler_received MAX_HISTORY τ fw hacc c hnd
  refine ⟨?_, ?_, ?_, ?_, ?_⟩
  · intro c hc
    rw [hstep σ hinv.nodup hs c]
    simp [hc]
  · rw [hstep σ hinv.nodup hs s]
    simp [hs]
  · intro c hc
    rw [hstep σ hinv.nodup hs c]
    simp [hc]
  · intro m hm
    simp only [step, hs, if_true] at hm
    exact launchHandler_sends MAX_HISTORY σ fw hacc m hm
  · intro d hd
    have hinvd := step_inv MAX_HISTORY σ (Input.disconnect d) hinv
    have hsock : ∀ c, c ∈ (step MAX_HISTORY σ (Input.disconnect d)).1.sockets
        ↔ (c ∈ σ.sockets ∧ c ≠ d) := by
      intro c
      by_cases hdm : d ∈ σ.sockets
      · simp only [step, hdm, if_true, disconnectHandler, List.mem_filter]
        simp
      · simp only [step, hdm, if_false]
        constructor
        · intro h
          exact ⟨h, fun hcd => hdm (hcd ▸ h)⟩
        · intro h
          exact h.1
    have hsd : s ∈ (step MAX_HISTORY σ (Input.disconnect d)).1.sockets :=
      (hsock s).mpr ⟨hs, fun h => hd h.symm⟩
    refine ⟨?_, ?_⟩
    · rw [hstep _ hinvd.nodup hsd d]
      have : d ∉ (step MAX_HISTORY σ (Input.disconnect d)).1.sockets := by
        rw [hsock d]
        exact fun h => h.2 rfl
      simp [this]
    · intro c hcd
      rw [hstep _ hinvd.nodup hsd c, hstep σ hinv.nodup hs c]
      by_cases hc : c ∈ σ.sockets
      · have : c ∈ (step MAX_HISTORY σ (Input.disconnect d)).1.sockets := (hsock c).mpr ⟨hc, hcd⟩
        simp [hc, this]
      · have : c ∉ (step MAX_HISTORY σ (Input.disconnect d)).1.sockets :=
          fun h => hc ((hsock c).mp h).1
        simp [hc, this]

/-- Witness of C2: with three sockets connected, socket 1 launches an accepted
payload; sockets 0, 1 and 2 each receive it once. -/
theorem C2_fanout_inclusion_witness :
    (1 ∈ (run MAX_HISTORY Server.init [Input.connect, Input.connect, Input.connect]).1.sockets
        ∧ rejects (sampleEvent 7) = false)
      ∧ received 1
          (step MAX_HISTORY
            (run MAX_HISTORY Server.init [Input.connect, Input.connect, Input.connect]).1
            (Input.launch 1 (sampleEvent 7))).2 = [launchMsg (sampleEvent 7) 1]
      ∧ (step MAX_HISTORY
            (run MAX_HISTORY Server.init [Input.connect, Input.connect, Input.connect]).1
            (Input.launch 1 (sampleEvent 7))).2
          = [Action.push (sampleEvent 7), Action.send (launchMsg (sampleEvent 7) 0),
              Action.send (launchMsg (sampleEvent 7) 1),
              Action.send (launchMsg (sampleEvent 7) 2)] := by
  have hs : 1 ∈ (run MAX_HISTORY Server.init
      [Input.connect, Input.connect, Input.connect]).1.sockets := by decide
  exact ⟨⟨hs, rfl⟩,
    (C2_fanout_inclusion [Input.connect, Input.connect, Input.connect] 1 (sampleEvent 7)
      hs rfl).2.1, rfl⟩

/-- C3. Bootstrap isolation: in every state the server can reach, the
connection of a new socket sends exactly one message, a `history` message
addressed to the new socket; no socket connected before receives anything;
the message carries the history buffer as it is at that moment, which is the
last at most 120 accepted payloads, oldest first; and the step leaves the
history buffer unchanged. -/
theorem C3_bootstrap_isolation (trace : List Input) :
    (step MAX_HISTORY (run MAX_HISTORY Server.init trace).1 Input.connect).2
        = [Action.send
            { dest := (run MAX_HISTORY Server.init trace).1.nextId, name := "history",
              data := JSVal.arr (run MAX_HISTORY Server.init trace).1.fireworksHistory }]
      ∧ (run MAX_HISTORY Server.init trace).1.nextId
          ∉ (run MAX_HISTORY Server.init trace).1.sockets
      ∧ (∀ c, c ∈ (run MAX_HISTORY Server.init trace).1.sockets →
          received c (step MAX_HISTORY (run MAX_HISTORY Server.init trace).1 Input.connect).2 = [])
      ∧ (step MAX_HISTORY (run MAX_HISTORY Server.init trace).1 Input.connect).1.sockets
          = (run MAX_HISTORY Server.init trace).1.sockets
              ++ [(run MAX_HISTORY Server.init trace).1.nextId]
      ∧ (run MAX_HISTORY Server.init trace).1.fireworksHistory
          = lastN 120 (accepted MAX_HISTORY Server.init trace)
      ∧ (run MAX_HISTORY Server.init trace).1.fireworksHistory.length ≤ 120
      ∧ (step MAX_HISTORY (run MAX_HISTORY Server.init trace).1 Input.connect).1.fireworksHistory
          = (run MAX_HISTORY Server.init trace).1.fireworksHistory := by
  have hinv := run_inv MAX_HISTORY trace Server.init (Server.init_inv MAX_HISTORY)
  have hhist := run_history MAX_HISTORY trace Server.init (Server.init_inv MAX_HISTORY)
  have hfresh : (run MAX_HISTORY Server.init trace).1.nextId
      ∉ (run MAX_HISTORY Server.init trace).1.sockets :=
    fun h => absurd (hinv.fresh _ h) (Nat.lt_irrefl _)
  refine ⟨rfl, hfresh, ?_, rfl, ?_, hinv.bounded, rfl⟩
  · intro c hc
    have hne : (run MAX_HISTORY Server.init trace).1.nextId ≠ c :=
      fun h => hfresh (h ▸ hc)
    simp [step, connectionHandler, socketEmit, received, hne]
  · rw [hhist]
    rfl

/-- C4. Silent rejection: in every state, when the `launch` payload is
`undefined`, `null`, a number, a string or a boolean, the launch handler
leaves the state (the history buffer included) exactly as it was and sends
nothing, whichever socket the payload comes from. -/
theorem C4_silent_rejection (σ : Server) (s : SocketId) :
    (launchHandler MAX_HISTORY σ JSVal.undefined = (σ, [])
        ∧ step MAX_HISTORY σ (Input.launch s JSVal.undefined) = (σ, []))
      ∧ (launchHandler MAX_HISTORY σ JSVal.null = (σ, [])
        ∧ step MAX_HISTORY σ (Input.launch s JSVal.null) = (σ, []))
      ∧ (∀ q : ℚ, launchHandler MAX_HISTORY σ (JSVal.num q) = (σ, [])
        ∧ step MAX_HISTORY σ (Input.launch s (JSVal.num q)) = (σ, []))
      ∧ (∀ t : String, launchHandler MAX_HISTORY σ (JSVal.str t) = (σ, [])
        ∧ step MAX_HISTORY σ (Input.launch s (JSVal.str t)) = (σ, []))
      ∧ (∀ b : Bool, launchHandler MAX_HISTORY σ (JSVal.bool b) = (σ, [])
        ∧ step MAX_HISTORY σ (Input.launch s (JSVal.bool b)) = (σ, [])) := by
  have key : ∀ fw, rejects fw = true →
      launchHandler MAX_HISTORY σ fw = (σ, [])
        ∧ step MAX_HISTORY σ (Input.launch s fw) = (σ, []) := by
    intro fw h
    have h1 := launchHandler_rejected MAX_HISTORY σ fw h
    refine ⟨h1, ?_⟩
    by_cases hs : s ∈ σ.sockets
    · simp only [step, hs, if_true, h1]
    · simp only [step, hs, if_false]
  refine ⟨key _ rfl, key _ rfl, fun q => key _ ?_, fun t => key _ ?_, fun b => key _ ?_⟩
  · simp [rejects, JSVal.typeof]
  · simp [rejects, JSVal.typeof]
  · simp [rejects, JSVal.typeof]

/-! ## Replay at connect, then live delivery -/

theorem accepted_append (n : Nat) (xs ys : List Input) :
    ∀ (σ : Server), accepted n σ (xs ++ ys)
      = accepted n σ xs ++ accepted n (run n σ xs).1 ys := by
  induction xs with
  | nil => intro σ; rfl
  | cons e es ih =>
      intro σ
      have h := ih (step n σ e).1
      rw [List.cons_append]
      simp only [accepted, run]
      rw [h, List.append_assoc]

theorem delivered_append (c : SocketId) (xs ys : List Action) :
    delivered c (xs ++ ys) = delivered c xs ++ delivered c ys := by
  unfold delivered
  rw [received_append, List.map_append, List.foldr_append]
  generalize (received c ys).map Msg.events = B
  generalize (received c xs).map Msg.events = A
  induction A with
  | nil => rfl
  | cons a rest ih => simp only [List.foldr_cons, ih, List.append_assoc]

theorem events_launchMsg (fw : JSVal) (c : SocketId) : Msg.events (launchMsg fw c) = [fw] := by
  simp [Msg.events, launchMsg]

theorem delivered_of_received_launches (c : SocketId) (acts : List Action) (fws : List JSVal)
    (h : received c acts = fws.map (fun fw => launchMsg fw c)) :
    delivered c acts = fws := by
  unfold delivered
  rw [h]
  clear h
  induction fws with
  | nil => rfl
  | cons fw rest ih =>
      simp only [List.map_cons, List.foldr_cons]
      rw [ih, events_launchMsg]
      rfl

theorem delivered_of_received_nil (c : SocketId) (acts : List Action)
    (h : received c acts = []) : delivered c acts = [] := by
  unfold delivered
  rw [h]
  rfl

/-- C5. Replay or live, exactly once, in the order of acceptance.  The
server runs a trace `pre`, then a socket `c` connects, then the server runs a
trace `post` in which `c` does not disconnect.  Then `c` had received nothing
before; at connect it receives one `history` message with the last at most
`cap` payloads accepted during `pre`; afterwards it receives exactly one
`launch` message per payload accepted during `post`, in that order; so the
events delivered to `c` over the whole run are the last at most `cap`
payloads accepted before it connected followed by every payload accepted
after; the buffer ends as the last at most `cap` of all accepted payloads;
and the launch handler pushes onto the history before it sends anything.
The capacity is `MAX_HISTORY = 120` in the program. -/
theorem C5_replay_then_live_exactly_once (cap : Nat) (pre post : List Input)
    (hstay : ∀ e ∈ post,
      Input.isDisconnectOf (run cap Server.init pre).1.nextId e = false) :
    received (run cap Server.init pre).1.nextId (run cap Server.init pre).2 = []
      ∧ received (run cap Server.init pre).1.nextId
          (step cap (run cap Server.init pre).1 Input.connect).2
          = [{ dest := (run cap Server.init pre).1.nextId, name := "history",
               data := JSVal.arr (lastN cap (accepted cap Server.init pre)) }]
      ∧ received (run cap Server.init pre).1.nextId
          (run cap (step cap (run cap Server.init pre).1 Input.connect).1 post).2
          = (accepted cap (step cap (run cap Server.init pre).1 Input.connect).1 post).map
              (fun fw => launchMsg fw (run cap Server.init pre).1.nextId)
      ∧ delivered (run cap Server.init pre).1.nextId
          (run cap Server.init (pre ++ Input.connect :: post)).2
          = lastN cap (accepted cap Server.init pre)
              ++ accepted cap (step cap (run cap Server.init pre).1 Input.connect).1 post
      ∧ accepted cap Server.init (pre ++ Input.connect :: post)
          = accepted cap Server.init pre
              ++ accepted cap (step cap (run cap Server.init pre).1 Input.connect).1 post
      ∧ (run cap Server.init (pre ++ Input.connect :: post)).1.fireworksHistory
          = lastN cap (accepted cap Server.init (pre ++ Input.connect :: post))
      ∧ (∀ (σ : Server) (fw : JSVal), rejects fw = false →
          ∃ rest, (launchHandler cap σ fw).2 = Action.push fw :: rest ∧ pushes rest = []) := by
  have hinv0 := run_inv cap pre Server.init (Server.init_inv cap)
  have hhist0 := run_history cap pre Server.init (Server.init_inv cap)
  have hinv1 := step_inv cap (run cap Server.init pre).1 Input.connect hinv0
  have ha : received (run cap Server.init pre).1.nextId (run cap Server.init pre).2 = [] :=
    run_received_fresh cap pre Server.init (Server.init_inv cap) _ (le_refl _)
  have hb : received (run cap Server.init pre).1.nextId
      (step cap (run cap Server.init pre).1 Input.connect).2
      = [{ dest := (run cap Server.init pre).1.nextId, name := "history",
           data := JSVal.arr (lastN cap (accepted cap Server.init pre)) }] := by
    have h0 : (run cap Server.init pre).1.fireworksHistory
        = lastN cap (accepted cap Server.init pre) := by
      rw [hhist0]; rfl
    simp [step, connectionHandler, socketEmit, received, h0]
  have hmem : (run cap Server.init pre).1.nextId
      ∈ (step cap (run cap Server.init pre).1 Input.connect).1.sockets := by
    show _ ∈ (run cap Server.init pre).1.sockets ++ [(run cap Server.init pre).1.nextId]
    simp
  have hc := run_received_connected cap post _ hinv1 _ hmem hstay
  have hw : (run cap Server.init (pre ++ Input.connect :: post)).1.fireworksHistory
      = lastN cap (accepted cap Server.init (pre ++ Input.connect :: post)) := by
    rw [run_history cap _ Server.init (Server.init_inv cap)]
    rfl
  refine ⟨ha, hb, hc, ?_, ?_, hw, ?_⟩
  · rw [run_append]
    simp only [run]
    rw [delivered_append, delivered_append, delivered_of_received_nil _ _ ha,
      delivered_of_received_launches _ _ _ hc]
    unfold delivered
    rw [hb]
    simp [Msg.events]
  · rw [accepted_append]
    rfl
  · intro σ fw hfw
    rw [launchHandler_accepted cap σ fw hfw]
    refine ⟨(if decide ((σ.fireworksHistory ++ [fw]).length > cap) then [Action.shift] else [])
      ++ σ.sockets.map (fun s => Action.send (launchMsg fw s)), rfl, ?_⟩
    rw [pushes_append]
    have h2 : pushes
        (if decide ((σ.fireworksHistory ++ [fw]).length > cap) then [Action.shift] else [])
        = [] := by
      split <;> rfl
    rw [h2]
    have h3 := pushes_emit "launch" fw σ.sockets
    simp only [launchMsg]
    rw [h3]
    rfl

/-- Witness of C5, the scenario with capacity 3: A (socket 0) connects and
gets the empty history; A sends E1; B (socket 1) connects and gets `[E1]`; A
sends E2, E3, E4; the buffer is `[E2, E3, E4]` and B has received E2, E3, E4
live, in that order, after E1 in its history. -/
theorem C5_replay_then_live_exactly_once_witness :
    (∀ e ∈ [Input.launch 0 (sampleEvent 2), Input.launch 0 (sampleEvent 3),
            Input.launch 0 (sampleEvent 4)],
        Input.isDisconnectOf
          (run 3 Server.init [Input.connect, Input.launch 0 (sampleEvent 1)]).1.nextId e = false)
      ∧ received 0 (step 3 Server.init Input.connect).2
          = [{ dest := 0, name := "history", data := JSVal.arr [] }]
      ∧ received 1
          (step 3 (run 3 Server.init [Input.connect, Input.launch 0 (sampleEvent 1)]).1
            Input.connect).2
          = [{ dest := 1, name := "history", data := JSVal.arr [sampleEvent 1] }]
      ∧ received 1
          (run 3
            (step 3 (run 3 Server.init [Input.connect, Input.launch 0 (sampleEvent 1)]).1
              Input.connect).1
            [Input.launch 0 (sampleEvent 2), Input.launch 0 (sampleEvent 3),
              Input.launch 0 (sampleEvent 4)]).2
          = [launchMsg (sampleEvent 2) 1, launchMsg (sampleEvent 3) 1,
              launchMsg (sampleEvent 4) 1]
      ∧ delivered 1
          (run 3 Server.init
            ([Input.connect, Input.launch 0 (sampleEvent 1)] ++ Input.connect ::
              [Input.launch 0 (sampleEvent 2), Input.launch 0 (sampleEvent 3),
                Input.launch 0 (sampleEvent 4)])).2
          = [sampleEvent 1, sampleEvent 2, sampleEvent 3, sampleEvent 4]
      ∧ (run 3 Server.init
            ([Input.connect, Input.launch 0 (sampleEvent 1)] ++ Input.connect ::
              [Input.launch 0 (sampleEvent 2), Input.launch 0 (sampleEvent 3),
                Input.launch 0 (sampleEvent 4)])).1.fireworksHistory
          = [sampleEvent 2, sampleEvent 3, sampleEvent 4] := by
  have hstay : ∀ e ∈ [Input.launch 0 (sampleEvent 2), Input.launch 0 (sampleEvent 3),
      Input.launch 0 (sampleEvent 4)],
      Input.isDisconnectOf
        (run 3 Server.init [Input.connect, Input.launch 0 (sampleEvent 1)]).1.nextId e
        = false := by
    intro e he
    simp only [List.mem_cons, List.mem_singleton, List.not_mem_nil, or_false] at he
    rcases he with h | h | h <;> subst h <;> rfl
  have h := C5_replay_then_live_exactly_once 3
    [Input.connect, Input.launch 0 (sampleEvent 1)]
    [Input.launch 0 (sampleEvent 2), Input.launch 0 (sampleEvent 3),
      Input.launch 0 (sampleEvent 4)] hstay
  exact ⟨hstay, rfl, h.2.1, h.2.2.1, h.2.2.2.1, h.2.2.2.2.2.1⟩

/-! ## Launches that arrive in any order -/

theorem accepted_launches (n : Nat) (l : List (SocketId × JSVal)) :
    ∀ (σ : Server), (∀ p ∈ l, p.1 ∈ σ.sockets) → (∀ p ∈ l, rejects p.2 = false) →
      accepted n σ (l.map launchOf) = l.map Prod.snd := by
  induction l with
  | nil => intro σ _ _; rfl
  | cons p rest ih =>
      intro σ hconn hacc
      have hp1 : p.1 ∈ σ.sockets := hconn p (List.mem_cons_self _ _)
      have hp2 : rejects p.2 = false := hacc p (List.mem_cons_self _ _)
      have hsock : (step n σ (launchOf p)).1.sockets = σ.sockets := by
        simp only [launchOf, step, hp1, if_true]
        exact (launchHandler_sockets n σ p.2).1
      have hrest := ih (step n σ (launchOf p)).1
        (fun q hq => by rw [hsock]; exact hconn q (List.mem_cons_of_mem _ hq))
        (fun q hq => hacc q (List.mem_cons_of_mem _ hq))
      simp only [List.map_cons, accepted]
      rw [hrest]
      simp [launchOf, acceptedAt, hp1, hp2]

/-- C8. Concurrency safety of the history buffer.  Handlers run to
completion, so `N` concurrent launches are handled in some arrival order, a
permutation of what was sent.  For every state the server can reach, every
set of accepted launches sent by connected sockets and every arrival order:
each payload is pushed exactly once, as sent, in arrival order; the buffer
ends as the last at most 120 of what it held followed by the arrivals; and
from an empty buffer its length is `min N 120`, its contents are a suffix of
the arrivals (nothing duplicated, nothing lost but the oldest), and all `N`
payloads are in it when `N ≤ 120`. -/
theorem C8_concurrent_appends (trace : List Input) (sends arrival : List (SocketId × JSVal))
    (hconn : ∀ p ∈ sends, p.1 ∈ (run MAX_HISTORY Server.init trace).1.sockets)
    (hacc : ∀ p ∈ sends, rejects p.2 = false)
    (hperm : arrival.Perm sends) :
    pushes (run MAX_HISTORY (run MAX_HISTORY Server.init trace).1 (arrival.map launchOf)).2
        = arrival.map Prod.snd
      ∧ (run MAX_HISTORY (run MAX_HISTORY Server.init trace).1
            (arrival.map launchOf)).1.fireworksHistory
          = lastN 120 ((run MAX_HISTORY Server.init trace).1.fireworksHistory
              ++ arrival.map Prod.snd)
      ∧ ((run MAX_HISTORY Server.init trace).1.fireworksHistory = [] →
          (run MAX_HISTORY (run MAX_HISTORY Server.init trace).1
              (arrival.map launchOf)).1.fireworksHistory.length = min sends.length 120
          ∧ (run MAX_HISTORY (run MAX_HISTORY Server.init trace).1
              (arrival.map launchOf)).1.fireworksHistory <:+ arrival.map Prod.snd
          ∧ (sends.length ≤ 120 →
              ((run MAX_HISTORY (run MAX_HISTORY Server.init trace).1
                (arrival.map launchOf)).1.fireworksHistory).Perm (sends.map Prod.snd))) := by
  have hinv := run_inv MAX_HISTORY trace Server.init (Server.init_inv MAX_HISTORY)
  have hconn2 : ∀ p ∈ arrival, p.1 ∈ (run MAX_HISTORY Server.init trace).1.sockets :=
    fun p hp => hconn p (hperm.mem_iff.mp hp)
  have hacc2 : ∀ p ∈ arrival, rejects p.2 = false :=
    fun p hp => hacc p (hperm.mem_iff.mp hp)
  have hA := accepted_launches MAX_HISTORY arrival _ hconn2 hacc2
  have hH := run_history MAX_HISTORY (arrival.map launchOf) _ hinv
  rw [hA] at hH
  refine ⟨?_, hH, ?_⟩
  · rw [run_pushes, hA]
  · intro hempty
    rw [hempty, List.nil_append] at hH
    refine ⟨?_, ?_, ?_⟩
    · rw [hH, lastN_length, List.length_map, hperm.length_eq]
      rfl
    · rw [hH]
      exact List.drop_suffix _ _
    · intro hN
      rw [hH, lastN_of_length_le]
      · exact hperm.map Prod.snd
      · rw [List.length_map, hperm.length_eq]
        exact hN

/-- Witness of C8: three connected sockets each send one payload; the
payloads arrive in another order than they were sent. -/
theorem C8_concurrent_appends_witness :
    ((∀ p ∈ [((0 : SocketId), sampleEvent 1), (1, sampleEvent 2), (2, sampleEvent 3)],
          p.1 ∈ (run MAX_HISTORY Server.init
            [Input.connect, Input.connect, Input.connect]).1.sockets)
        ∧ (∀ p ∈ [((0 : SocketId), sampleEvent 1), (1, sampleEvent 2), (2, sampleEvent 3)],
          rejects p.2 = false)
        ∧ [((2 : SocketId), sampleEvent 3), (0, sampleEvent 1), (1, sampleEvent 2)].Perm
            [(0, sampleEvent 1), (1, sampleEvent 2), (2, sampleEvent 3)])
      ∧ (run MAX_HISTORY
            (run MAX_HISTORY Server.init [Input.connect, Input.connect, Input.connect]).1
            ([((2 : SocketId), sampleEvent 3), (0, sampleEvent 1), (1, sampleEvent 2)].map
              launchOf)).1.fireworksHistory
          = [sampleEvent 3, sampleEvent 1, sampleEvent 2] := by
  have hconn : ∀ p ∈ [((0 : SocketId), sampleEvent 1), (1, sampleEvent 2), (2, sampleEvent 3)],
      p.1 ∈ (run MAX_HISTORY Server.init
        [Input.connect, Input.connect, Input.connect]).1.sockets := by
    intro p hp
    simp only [List.mem_cons, List.mem_singleton, List.not_mem_nil, or_false] at hp
    rcases hp with h | h | h <;> subst h <;> decide
  have hacc : ∀ p ∈ [((0 : SocketId), sampleEvent 1), (1, sampleEvent 2), (2, sampleEvent 3)],
      rejects p.2 = false := by
    intro p hp
    simp only [List.mem_cons, List.mem_singleton, List.not_mem_nil, or_false] at hp
    rcases hp with h | h | h <;> subst h <;> rfl
  have hperm : [((2 : SocketId), sampleEvent 3), (0, sampleEvent 1), (1, sampleEvent 2)].Perm
      [(0, sampleEvent 1), (1, sampleEvent 2), (2, sampleEvent 3)] :=
    @List.perm_append_comm _ [((2 : SocketId), sampleEvent 3)]
      [(0, sampleEvent 1), (1, sampleEvent 2)]
  exact ⟨⟨hconn, hacc, hperm⟩,
    (C8_concurrent_appends [Input.connect, Input.connect, Input.connect] _ _
      hconn hacc hperm).2.1⟩

/-! ## The client: reading a payload -/

theorem rejects_false_cases (fw : JSVal) (h : rejects fw = false) :
    (∃ fields, fw = JSVal.obj fields) ∨ (∃ items, fw = JSVal.arr items) := by
  cases fw with
  | undefined => simp [rejects, JSVal.truthy] at h
  | null => simp [rejects, JSVal.truthy] at h
  | bool b => simp [rejects, JSVal.typeof] at h
  | num q => simp [rejects, JSVal.typeof] at h
  | str t => simp [rejects, JSVal.typeof] at h
  | obj fields => exact Or.inl ⟨fields, rfl⟩
  | arr items => exact Or.inr ⟨items, rfl⟩

theorem getProp_of_accepted (fw : JSVal) (h : rejects fw = false) (k : String) :
    getProp fw k = some (fw.prop k) := by
  rcases rejects_false_cases fw h with ⟨fields, rfl⟩ | ⟨items, rfl⟩ <;> rfl

theorem rejects_false_of_prop (v : JSVal) (k t : String) (h : v.prop k = JSVal.str t) :
    rejects v = false := by
  cases v with
  | obj fields => rfl
  | arr items => rfl
  | undefined => cases h
  | null => cases h
  | bool b => cases h
  | num q => cases h
  | str u => cases h

theorem optChain_eq (v : JSVal) (k : String) : optChain v k = some (v.chain k) := by
  cases v <;> rfl

theorem constrain_range (n : JSNum) :
    (n = JSNum.nan ∧ constrain n (.fin 0.4) (.fin 2.2) = JSNum.nan)
      ∨ ∃ q : ℚ, constrain n (.fin 0.4) (.fin 2.2) = .fin q ∧ 0.4 ≤ q ∧ q ≤ 2.2 := by
  cases n with
  | nan => exact Or.inl ⟨rfl, rfl⟩
  | ninf =>
      refine Or.inr ⟨0.4, rfl, le_refl _, ?_⟩
      norm_num
  | pinf =>
      refine Or.inr ⟨2.2, ?_, ?_, le_refl _⟩
      · simp only [constrain, JSNum.min, JSNum.max]
        congr 1
        norm_num
      · norm_num
  | fin q =>
      refine Or.inr ⟨Max.max (Min.min q 2.2) 0.4, rfl, le_max_right _ _, ?_⟩
      apply max_le
      · exact min_le_right _ _
      · norm_num

/-- The loop of `createParticles` exits whenever the size is NaN or finite. -/
theorem createParticles_isSome (env : Env) (x y size baseAlpha : JSNum) (shape : String)
    (k : Nat) (hsize : size ≠ JSNum.pinf) (hsize2 : size ≠ JSNum.ninf) :
    ∃ ps, createParticles env x y size baseAlpha shape k = some ps := by
  unfold createParticles
  cases size with
  | nan => exact ⟨_, rfl⟩
  | ninf => exact absurd rfl hsize2
  | pinf => exact absurd rfl hsize
  | fin q => exact ⟨_, rfl⟩

/-- What `spawnFireworkFromNetwork` does with a payload that passes its guard:
it builds one `Firework` from the fields read and pushes it. -/
theorem spawn_accepted (env : Env) (st : Client) (fw : JSVal) (isHistory : Bool)
    (h : rejects fw = false) :
    spawnFireworkFromNetwork env st fw isHistory =
      (Firework.new env
        (JSNum.mul (toNumber env (orElse (fw.prop "x") (.num 0.5))) env.width)
        (JSNum.mul (toNumber env (orElse (fw.prop "y") (.num 0.5))) env.height)
        { r := orElse ((fw.prop "col").chain "r") (.num 255),
          g := orElse ((fw.prop "col").chain "g") (.num 255),
          b := orElse ((fw.prop "col").chain "b") (.num 255) }
        (constrain (toNumber env (orElse (fw.prop "size") (.num 1.0))) (.fin 0.4) (.fin 2.2))
        (toStr env (orElse (fw.prop "shape") (.str "burst")))
        isHistory st.cursor).map
        (fun made => { fireworks := st.fireworks ++ [made.1], cursor := made.2 }) := by
  unfold spawnFireworkFromNetwork
  simp only [h, getProp_of_accepted fw h, optChain_eq, Option.bind_eq_bind, Option.some_bind,
    Bool.false_eq_true, if_false]
  cases Firework.new env
        (JSNum.mul (toNumber env (orElse (fw.prop "x") (.num 0.5))) env.width)
        (JSNum.mul (toNumber env (orElse (fw.prop "y") (.num 0.5))) env.height)
        { r := orElse ((fw.prop "col").chain "r") (.num 255),
          g := orElse ((fw.prop "col").chain "g") (.num 255),
          b := orElse ((fw.prop "col").chain "b") (.num 255) }
        (constrain (toNumber env (orElse (fw.prop "size") (.num 1.0))) (.fin 0.4) (.fin 2.2))
        (toStr env (orElse (fw.prop "shape") (.str "burst")))
        isHistory st.cursor <;> rfl

/-- The constructor returns, with the fields it was given, whenever the size
is NaN or finite. -/
theorem Firework.new_fields (env : Env) (x y : JSNum) (col : Color) (size : JSNum)
    (shape : String) (isHistory : Bool) (k : Nat)
    (hsize : size ≠ JSNum.pinf) (hsize2 : size ≠ JSNum.ninf) :
    ∃ f k2, Firework.new env x y col size shape isHistory k = some (f, k2)
      ∧ f.x = x ∧ f.y = y ∧ f.col = col ∧ f.size = size ∧ f.shape = shape
      ∧ f.baseAlpha = (if isHistory then .fin 140 else .fin 220)
      ∧ createParticles env x y size (if isHistory then .fin 140 else .fin 220) shape k
          = some (f.particles, k2) := by
  obtain ⟨ps, hps⟩ := createParticles_isSome env x y size
    (if isHistory then .fin 140 else .fin 220) shape k hsize hsize2
  refine ⟨{ x := x, y := y, col := col, size := size, shape := shape,
            baseAlpha := if isHistory then .fin 140 else .fin 220,
            particles := ps.1, life := .fin 0, maxLife := .fin 90 },
    ps.2, ?_, rfl, rfl, rfl, rfl, rfl, rfl, ?_⟩
  · unfold Firework.new
    simp only [hps, Option.map_some']
  · rw [hps]

/-- Every payload that passes the guard makes `spawnFireworkFromNetwork` push
exactly one `Firework`, built from the fields read. -/
theorem spawn_pushes_one (env : Env) (st : Client) (fw : JSVal) (isHistory : Bool)
    (h : rejects fw = false) :
    ∃ f k2, spawnFireworkFromNetwork env st fw isHistory
        = some { fireworks := st.fireworks ++ [f], cursor := k2 }
      ∧ f.x = JSNum.mul (toNumber env (orElse (fw.prop "x") (.num 0.5))) env.width
      ∧ f.y = JSNum.mul (toNumber env (orElse (fw.prop "y") (.num 0.5))) env.height
      ∧ f.col = { r := orElse ((fw.prop "col").chain "r") (.num 255),
                  g := orElse ((fw.prop "col").chain "g") (.num 255),
                  b := orElse ((fw.prop "col").chain "b") (.num 255) }
      ∧ f.size
          = constrain (toNumber env (orElse (fw.prop "size") (.num 1.0))) (.fin 0.4) (.fin 2.2)
      ∧ f.shape = toStr env (orElse (fw.prop "shape") (.str "burst"))
      ∧ f.baseAlpha = (if isHistory then .fin 140 else .fin 220) := by
  have hne : constrain (toNumber env (orElse (fw.prop "size") (.num 1.0))) (.fin 0.4) (.fin 2.2)
      ≠ JSNum.pinf ∧
      constrain (toNumber env (orElse (fw.prop "size") (.num 1.0))) (.fin 0.4) (.fin 2.2)
      ≠ JSNum.ninf := by
    rcases constrain_range (toNumber env (orElse (fw.prop "size") (.num 1.0))) with
      ⟨_, h2⟩ | ⟨q, h2, _, _⟩
    · rw [h2]; exact ⟨by simp, by simp⟩
    · rw [h2]; exact ⟨by simp, by simp⟩
  obtain ⟨f, k2, hnew, hx, hy, hcol, hsz, hsh, hba, _⟩ :=
    Firework.new_fields env
      (JSNum.mul (toNumber env (orElse (fw.prop "x") (.num 0.5))) env.width)
      (JSNum.mul (toNumber env (orElse (fw.prop "y") (.num 0.5))) env.height)
      { r := orElse ((fw.prop "col").chain "r") (.num 255),
        g := orElse ((fw.prop "col").chain "g") (.num 255),
        b := orElse ((fw.prop "col").chain "b") (.num 255) }
      (constrain (toNumber env (orElse (fw.prop "size") (.num 1.0))) (.fin 0.4) (.fin 2.2))
      (toStr env (orElse (fw.prop "shape") (.str "burst")))
      isHistory st.cursor hne.1 hne.2
  refine ⟨f, k2, ?_, hx, hy, hcol, hsz, hsh, hba⟩
  rw [spawn_accepted env st fw isHistory h, hnew]
  rfl

theorem spawn_rejected (env : Env) (st : Client) (fw : JSVal) (isHistory : Bool)
    (h : rejects fw = true) :
    spawnFireworkFromNetwork env st fw isHistory = some st := by
  simp [spawnFireworkFromNetwork, h]

/-! ## The client: particles of a shape outside the enumeration -/

theorem random2_radius (env : Env) (k : Nat) :
    random2 env k (.fin 0.6) (.fin 1.0)
      = JSNum.add (JSNum.mul (.fin (env.rand k)) (.fin 0.4)) (.fin 0.6) := by
  have hgt : JSNum.gt (.fin 0.6) (.fin 1.0) = false := by
    simp only [JSNum.gt, JSNum.lt, decide_eq_false_iff_not]
    norm_num
  have hsub : JSNum.sub (.fin 1.0) (.fin 0.6) = .fin 0.4 := by
    simp only [JSNum.sub, JSNum.neg, JSNum.add]
    congr 1
    norm_num
  simp only [random2, hgt, hsub, Bool.false_eq_true, if_false]

theorem particleStep_default (env : Env) (x y size baseAlpha : JSNum) (shape : String)
    (count speed : JSNum) (i k : Nat)
    (h1 : shape ≠ "ring") (h2 : shape ≠ "star") (h3 : shape ≠ "spiral") :
    particleStep env x y size baseAlpha shape count speed i k
      = ({ px := x, py := y,
           vx := JSNum.mul (JSNum.mul (env.cos (JSNum.mul (.fin (env.rand k)) TWO_PI)) speed)
                  (JSNum.add (JSNum.mul (.fin (env.rand (k + 1))) (.fin 0.4)) (.fin 0.6)),
           vy := JSNum.mul (JSNum.mul (env.sin (JSNum.mul (.fin (env.rand k)) TWO_PI)) speed)
                  (JSNum.add (JSNum.mul (.fin (env.rand (k + 1))) (.fin 0.4)) (.fin 0.6)),
           drag := random2 env (k + 2) (.fin 0.97) (.fin 0.992),
           grav := JSNum.mul (random2 env (k + 3) (.fin 0.012) (.fin 0.03)) size,
           alpha := baseAlpha,
           size := JSNum.mul (random2 env (k + 4) (.fin 2.0) (.fin 4.2)) size },
         k + 5) := by
  simp only [particleStep, h1, h2, h3, if_false, random1, random2_radius]

theorem particleLoop_default (env : Env) (x y size baseAlpha : JSNum) (shape : String)
    (count speed : JSNum)
    (h1 : shape ≠ "ring") (h2 : shape ≠ "star") (h3 : shape ≠ "spiral") (n : Nat) :
    ∀ (i k : Nat), particleLoop env x y size baseAlpha shape count speed n i k
      = (burstParticles env x y size baseAlpha speed n k, k + 5 * n) := by
  induction n with
  | zero => intro i k; rfl
  | succ n ih =>
      intro i k
      simp only [particleLoop, burstParticles,
        particleStep_default env x y size baseAlpha shape count speed i k h1 h2 h3, ih]
      congr 1
      omega

theorem createParticles_default (env : Env) (x y size baseAlpha : JSNum) (shape : String)
    (k : Nat) (h1 : shape ≠ "ring") (h2 : shape ≠ "star") (h3 : shape ≠ "spiral") :
    createParticles env x y size baseAlpha shape k
      = (iterations (JSNum.floor (JSNum.mul (.fin 80) size))).map
          (fun n => (burstParticles env x y size baseAlpha (JSNum.mul (.fin 2.2) size) n k,
            k + 5 * n)) := by
  unfold createParticles
  simp only [particleLoop_default env x y size baseAlpha shape _ _ h1 h2 h3]

theorem orElse_of_nullish (v d : JSVal) (h : v.nullish = true) : orElse v d = d := by
  simp [orElse, h]

theorem chain_of_nullish (v : JSVal) (k : String) (h : v.nullish = true) :
    v.chain k = .undefined := by
  cases v <;> simp [JSVal.nullish] at h <;> rfl

/-! ## The claims about the client -/

/-- C9. Unrecognised shapes are tolerated as the default.  For every event
whose shape is a string other than `ring`, `star` and `spiral`:
`spawnFireworkFromNetwork` does not reject it, returns and pushes exactly one
`Firework`, of that shape; and `createParticles` yields for that shape, for
every position, size, alpha and state of the random generator, exactly what it
yields for `burst`, which is the particles of the specification
`burstParticles` (random angle, radius factor drawn from `[0.6, 1.0]`), five
draws per particle. -/
theorem C9_unrecognised_shape_is_burst (env : Env) (st : Client) (ev : JSVal)
    (isHistory : Bool) (shape : String)
    (hshape : ev.prop "shape" = JSVal.str shape)
    (h1 : shape ≠ "ring") (h2 : shape ≠ "star") (h3 : shape ≠ "spiral") :
    (rejects ev = false
        ∧ ∃ f k2, spawnFireworkFromNetwork env st ev isHistory
          = some { fireworks := st.fireworks ++ [f], cursor := k2 }
        ∧ f.shape = shape
        ∧ createParticles env f.x f.y f.size f.baseAlpha "burst" st.cursor
            = some (f.particles, k2))
      ∧ (∀ (x y size baseAlpha : JSNum) (k : Nat),
          createParticles env x y size baseAlpha shape k
            = createParticles env x y size baseAlpha "burst" k)
      ∧ (∀ (x y size baseAlpha : JSNum) (k : Nat),
          createParticles env x y size baseAlpha shape k
            = (iterations (JSNum.floor (JSNum.mul (.fin 80) size))).map
                (fun n =>
                  (burstParticles env x y size baseAlpha (JSNum.mul (.fin 2.2) size) n k,
                    k + 5 * n)))
      ∧ (∀ k, 0 ≤ env.rand k → env.rand k < 1 →
          ∃ r : ℚ, random2 env k (.fin 0.6) (.fin 1.0) = .fin r ∧ 0.6 ≤ r ∧ r ≤ 1.0) := by
  have hobj : rejects ev = false := rejects_false_of_prop ev "shape" shape hshape
  have hb1 : ("burst" : String) ≠ "ring" := by decide
  have hb2 : ("burst" : String) ≠ "star" := by decide
  have hb3 : ("burst" : String) ≠ "spiral" := by decide
  have hsame : ∀ (x y size baseAlpha : JSNum) (k : Nat),
      createParticles env x y size baseAlpha shape k
        = createParticles env x y size baseAlpha "burst" k := by
    intro x y size baseAlpha k
    rw [createParticles_default env x y size baseAlpha shape k h1 h2 h3,
      createParticles_default env x y size baseAlpha "burst" k hb1 hb2 hb3]
  refine ⟨?_, hsame, ?_, ?_⟩
  · have hne : constrain (toNumber env (orElse (ev.prop "size") (.num 1.0))) (.fin 0.4) (.fin 2.2)
        ≠ JSNum.pinf ∧
        constrain (toNumber env (orElse (ev.prop "size") (.num 1.0))) (.fin 0.4) (.fin 2.2)
        ≠ JSNum.ninf := by
      rcases constrain_range (toNumber env (orElse (ev.prop "size") (.num 1.0))) with
        ⟨_, h2⟩ | ⟨q, h2, _, _⟩
      · rw [h2]; exact ⟨by simp, by simp⟩
      · rw [h2]; exact ⟨by simp, by simp⟩
    obtain ⟨f, k2, hnew, hx, hy, _, hsz, hsh, hba, hps⟩ :=
      Firework.new_fields env
        (JSNum.mul (toNumber env (orElse (ev.prop "x") (.num 0.5))) env.width)
        (JSNum.mul (toNumber env (orElse (ev.prop "y") (.num 0.5))) env.height)
        { r := orElse ((ev.prop "col").chain "r") (.num 255),
          g := orElse ((ev.prop "col").chain "g") (.num 255),
          b := orElse ((ev.prop "col").chain "b") (.num 255) }
        (constrain (toNumber env (orElse (ev.prop "size") (.num 1.0))) (.fin 0.4) (.fin 2.2))
        (toStr env (orElse (ev.prop "shape") (.str "burst")))
        isHistory st.cursor hne.1 hne.2
    have hshape2 : toStr env (orElse (ev.prop "shape") (.str "burst")) = shape := by
      rw [hshape]; rfl
    refine ⟨hobj, f, k2, ?_, ?_, ?_⟩
    · rw [spawn_accepted env st ev isHistory hobj, hnew]
      rfl
    · rw [hsh, hshape2]
    · rw [hx, hy, hsz, hba, ← hsame, ← hshape2]
      exact hps
  · intro x y size baseAlpha k
    exact createParticles_default env x y size baseAlpha shape k h1 h2 h3
  · intro k h0 hlt
    refine ⟨env.rand k * 0.4 + 0.6, ?_, ?_, ?_⟩
    · rw [random2_radius]
      rfl
    · linarith
    · linarith

/-- Witness of C9: an event of shape `heart` spawns one firework, whose
particles are those of a burst. -/
theorem C9_unrecognised_shape_is_burst_witness :
    (heartEvent.prop "shape" = JSVal.str "heart"
        ∧ ("heart" : String) ≠ "ring" ∧ ("heart" : String) ≠ "star"
        ∧ ("heart" : String) ≠ "spiral")
      ∧ (rejects heartEvent = false
        ∧ ∃ f k2, spawnFireworkFromNetwork sampleEnv Client.init heartEvent false
            = some { fireworks := Client.init.fireworks ++ [f], cursor := k2 }
          ∧ f.shape = "heart"
          ∧ createParticles sampleEnv f.x f.y f.size f.baseAlpha "burst" Client.init.cursor
              = some (f.particles, k2))
      ∧ createParticles sampleEnv (.fin 400) (.fin 300) (.fin 1) (.fin 220) "heart" 0
          = createParticles sampleEnv (.fin 400) (.fin 300) (.fin 1) (.fin 220) "burst" 0 := by
  have h := C9_unrecognised_shape_is_burst sampleEnv Client.init heartEvent false "heart"
    rfl (by decide) (by decide) (by decide)
  exact ⟨⟨rfl, by decide, by decide, by decide⟩, h.1,
    h.2.1 (.fin 400) (.fin 300) (.fin 1) (.fin 220) 0⟩

/-- C10. Receiver-side normalisation.  `spawnFireworkFromNetwork` returns
without pushing anything when the payload is `undefined`, `null`, a number, a
string or a boolean.  For every other payload it pushes exactly one
`Firework`: its size is `Number(fw.size ?? 1.0)` clamped by `constrain`, which
for a numeric size `q` is `max (min q 2.2) 0.4`, a value of `[0.4, 2.2]`, and
`1.0` for an absent size; its position is `((fw.x ?? 0.5) * width,
(fw.y ?? 0.5) * height)`; its colour channels are those of `fw.col`, each
absent channel, or all three when `col` is absent, being 255; and its shape is
`String(fw.shape ?? "burst")`, the string itself for a string and `burst` for
an absent shape.  The last two parts say the same on the fields of the
payload itself.  For a record with the fields `fields`: a numeric `size`,
`x`, `y` and a string `shape` found among them are taken as said, and a
missing one is defaulted; when `col` is a record, each channel found in it
that is neither `null` nor `undefined` is the Firework's channel, and each
channel that is missing or `null` is 255; when `col` is missing, `null` or not
a record, all three channels are 255.  For an array every field is missing,
so the Firework is the default one. -/
theorem C10_receiver_normalisation (env : Env) (st : Client) (fw : JSVal) (isHistory : Bool)
    (hobj : rejects fw = false) :
    (spawnFireworkFromNetwork env st JSVal.undefined isHistory = some st
        ∧ spawnFireworkFromNetwork env st JSVal.null isHistory = some st
        ∧ (∀ q : ℚ, spawnFireworkFromNetwork env st (JSVal.num q) isHistory = some st)
        ∧ (∀ t : String, spawnFireworkFromNetwork env st (JSVal.str t) isHistory = some st)
        ∧ (∀ b : Bool, spawnFireworkFromNetwork env st (JSVal.bool b) isHistory = some st))
      ∧ ∃ f k2, spawnFireworkFromNetwork env st fw isHistory
            = some { fireworks := st.fireworks ++ [f], cursor := k2 }
          ∧ (f.size = constrain (toNumber env (orElse (fw.prop "size") (.num 1.0)))
                (.fin 0.4) (.fin 2.2)
            ∧ (∀ q : ℚ, fw.prop "size" = JSVal.num q →
                f.size = .fin (Max.max (Min.min q 2.2) 0.4)
                  ∧ (0.4 : ℚ) ≤ Max.max (Min.min q 2.2) 0.4
                  ∧ Max.max (Min.min q 2.2) 0.4 ≤ (2.2 : ℚ))
            ∧ ((fw.prop "size").nullish = true → f.size = .fin 1.0))
          ∧ (f.x = JSNum.mul (toNumber env (orElse (fw.prop "x") (.num 0.5))) env.width
            ∧ f.y = JSNum.mul (toNumber env (orElse (fw.prop "y") (.num 0.5))) env.height
            ∧ (∀ q : ℚ, fw.prop "x" = JSVal.num q → f.x = JSNum.mul (.fin q) env.width)
            ∧ (∀ q : ℚ, fw.prop "y" = JSVal.num q → f.y = JSNum.mul (.fin q) env.height)
            ∧ ((fw.prop "x").nullish = true → f.x = JSNum.mul (.fin 0.5) env.width)
            ∧ ((fw.prop "y").nullish = true → f.y = JSNum.mul (.fin 0.5) env.height))
          ∧ (f.col.r = orElse ((fw.prop "col").chain "r") (.num 255)
            ∧ f.col.g = orElse ((fw.prop "col").chain "g") (.num 255)
            ∧ f.col.b = orElse ((fw.prop "col").chain "b") (.num 255)
            ∧ ((fw.prop "col").nullish = true →
                f.col.r = .num 255 ∧ f.col.g = .num 255 ∧ f.col.b = .num 255))
          ∧ (f.shape = toStr env (orElse (fw.prop "shape") (.str "burst"))
            ∧ (∀ t : String, fw.prop "shape" = JSVal.str t → f.shape = t)
            ∧ ((fw.prop "shape").nullish = true → f.shape = "burst"))
          ∧ (∀ fields : List (String × JSVal), fw = JSVal.obj fields →
              ((∀ q : ℚ, fields.lookup "size" = some (JSVal.num q) →
                  f.size = .fin (Max.max (Min.min q 2.2) 0.4))
                ∧ (fields.lookup "size" = none → f.size = .fin 1.0))
              ∧ ((∀ q : ℚ, fields.lookup "x" = some (JSVal.num q) →
                  f.x = JSNum.mul (.fin q) env.width)
                ∧ (fields.lookup "x" = none → f.x = JSNum.mul (.fin 0.5) env.width)
                ∧ (∀ q : ℚ, fields.lookup "y" = some (JSVal.num q) →
                  f.y = JSNum.mul (.fin q) env.height)
                ∧ (fields.lookup "y" = none → f.y = JSNum.mul (.fin 0.5) env.height))
              ∧ ((∀ t : String, fields.lookup "shape" = some (JSVal.str t) → f.shape = t)
                ∧ (fields.lookup "shape" = none → f.shape = "burst"))
              ∧ (∀ cf : List (String × JSVal), fields.lookup "col" = some (JSVal.obj cf) →
                  ((∀ v, cf.lookup "r" = some v → v.nullish = false → f.col.r = v)
                    ∧ (∀ v, cf.lookup "r" = some v → v.nullish = true → f.col.r = .num 255)
                    ∧ (cf.lookup "r" = none → f.col.r = .num 255))
                  ∧ ((∀ v, cf.lookup "g" = some v → v.nullish = false → f.col.g = v)
                    ∧ (∀ v, cf.lookup "g" = some v → v.nullish = true → f.col.g = .num 255)
                    ∧ (cf.lookup "g" = none → f.col.g = .num 255))
                  ∧ ((∀ v, cf.lookup "b" = some v → v.nullish = false → f.col.b = v)
                    ∧ (∀ v, cf.lookup "b" = some v → v.nullish = true → f.col.b = .num 255)
                    ∧ (cf.lookup "b" = none → f.col.b = .num 255)))
              ∧ (fields.lookup "col" = none →
                  f.col.r = .num 255 ∧ f.col.g = .num 255 ∧ f.col.b = .num 255)
              ∧ (∀ c : JSVal, fields.lookup "col" = some c → (∀ cf, c ≠ JSVal.obj cf) →
                  f.col.r = .num 255 ∧ f.col.g = .num 255 ∧ f.col.b = .num 255))
          ∧ (∀ items : List JSVal, fw = JSVal.arr items →
              f.size = .fin 1.0
                ∧ f.x = JSNum.mul (.fin 0.5) env.width ∧ f.y = JSNum.mul (.fin 0.5) env.height
                ∧ f.col.r = .num 255 ∧ f.col.g = .num 255 ∧ f.col.b = .num 255
                ∧ f.shape = "burst") := by
  refine ⟨⟨spawn_rejected env st _ isHistory rfl, spawn_rejected env st _ isHistory rfl,
    fun q => spawn_rejected env st _ isHistory (by simp [rejects, JSVal.typeof]),
    fun t => spawn_rejected env st _ isHistory (by simp [rejects, JSVal.typeof]),
    fun b => spawn_rejected env st _ isHistory (by simp [rejects, JSVal.typeof])⟩, ?_⟩
  obtain ⟨f, k2, hspawn, hx, hy, hcol, hsz, hsh, _⟩ := spawn_pushes_one env st fw isHistory hobj
  have hr : f.col.r = orElse ((fw.prop "col").chain "r") (.num 255) := by rw [hcol]
  have hg : f.col.g = orElse ((fw.prop "col").chain "g") (.num 255) := by rw [hcol]
  have hb : f.col.b = orElse ((fw.prop "col").chain "b") (.num 255) := by rw [hcol]
  have hsizeNum : ∀ q : ℚ, fw.prop "size" = JSVal.num q →
      f.size = .fin (Max.max (Min.min q 2.2) 0.4) := by
    intro q hq
    rw [hsz, hq]
    rfl
  have hsizeNone : (fw.prop "size").nullish = true → f.size = .fin 1.0 := by
    intro hn
    rw [hsz, orElse_of_nullish _ _ hn]
    simp only [toNumber, constrain, JSNum.min, JSNum.max]
    congr 1
    norm_num
  have hxNum : ∀ q : ℚ, fw.prop "x" = JSVal.num q → f.x = JSNum.mul (.fin q) env.width := by
    intro q hq
    rw [hx, hq]; rfl
  have hyNum : ∀ q : ℚ, fw.prop "y" = JSVal.num q → f.y = JSNum.mul (.fin q) env.height := by
    intro q hq
    rw [hy, hq]; rfl
  have hxNone : (fw.prop "x").nullish = true → f.x = JSNum.mul (.fin 0.5) env.width := by
    intro hn
    rw [hx, orElse_of_nullish _ _ hn]; rfl
  have hyNone : (fw.prop "y").nullish = true → f.y = JSNum.mul (.fin 0.5) env.height := by
    intro hn
    rw [hy, orElse_of_nullish _ _ hn]; rfl
  have hshapeStr : ∀ t : String, fw.prop "shape" = JSVal.str t → f.shape = t := by
    intro t ht
    rw [hsh, ht]; rfl
  have hshapeNone : (fw.prop "shape").nullish = true → f.shape = "burst" := by
    intro hn
    rw [hsh, orElse_of_nullish _ _ hn]; rfl
  have hwhite : ∀ c : JSVal, fw.prop "col" = c → (∀ cf, c ≠ JSVal.obj cf) →
      f.col.r = .num 255 ∧ f.col.g = .num 255 ∧ f.col.b = .num 255 := by
    intro c hc hnot
    have hch : ∀ k, c.chain k = .undefined := by
      intro k
      cases c with
      | obj cf => exact absurd rfl (hnot cf)
      | undefined => rfl
      | null => rfl
      | bool _ => rfl
      | num _ => rfl
      | str _ => rfl
      | arr _ => rfl
    rw [hr, hg, hb, hc, hch, hch, hch]
    exact ⟨rfl, rfl, rfl⟩
  have hchannel : ∀ (cf : List (String × JSVal)) (k : String) (out : JSVal),
      fw.prop "col" = JSVal.obj cf → out = orElse ((fw.prop "col").chain k) (.num 255) →
      (∀ v, cf.lookup k = some v → v.nullish = false → out = v)
        ∧ (∀ v, cf.lookup k = some v → v.nullish = true → out = .num 255)
        ∧ (cf.lookup k = none → out = .num 255) := by
    intro cf k out hc hout
    have hch : (fw.prop "col").chain k = (cf.lookup k).getD .undefined := by
      rw [hc]; rfl
    rw [hch] at hout
    refine ⟨?_, ?_, ?_⟩
    · intro v hv hn
      rw [hout, hv]
      simp [orElse, hn]
    · intro v hv hn
      rw [hout, hv]
      simp [orElse, hn]
    · intro hv
      rw [hout, hv]
      rfl
  refine ⟨f, k2, hspawn,
    ⟨hsz, fun q hq => ⟨hsizeNum q hq, le_max_right _ _,
      max_le (min_le_right _ _) (by norm_num)⟩, hsizeNone⟩,
    ⟨hx, hy, hxNum, hyNum, hxNone, hyNone⟩,
    ⟨hr, hg, hb, fun hn => ?_⟩,
    ⟨hsh, hshapeStr, hshapeNone⟩, ?_, ?_⟩
  · rw [hr, hg, hb]
    simp only [chain_of_nullish _ _ hn]
    exact ⟨rfl, rfl, rfl⟩
  · intro fields hfw
    have hprop : ∀ k, fw.prop k = (fields.lookup k).getD .undefined := by
      intro k
      rw [hfw]; rfl
    have hsome : ∀ k v, fields.lookup k = some v → fw.prop k = v := by
      intro k v h
      rw [hprop, h]; rfl
    have hnone : ∀ k, fields.lookup k = none → (fw.prop k).nullish = true := by
      intro k h
      rw [hprop, h]; rfl
    refine ⟨⟨fun q hq => hsizeNum q (hsome _ _ hq), fun h => hsizeNone (hnone _ h)⟩,
      ⟨fun q hq => hxNum q (hsome _ _ hq), fun h => hxNone (hnone _ h),
        fun q hq => hyNum q (hsome _ _ hq), fun h => hyNone (hnone _ h)⟩,
      ⟨fun t ht => hshapeStr t (hsome _ _ ht), fun h => hshapeNone (hnone _ h)⟩,
      ?_, ?_, ?_⟩
    · intro cf hc
      exact ⟨hchannel cf "r" _ (hsome _ _ hc) hr, hchannel cf "g" _ (hsome _ _ hc) hg,
        hchannel cf "b" _ (hsome _ _ hc) hb⟩
    · intro h
      refine hwhite JSVal.undefined ?_ (fun cf hcf => by cases hcf)
      rw [hprop, h]; rfl
    · intro c hc hnot
      exact hwhite c (hsome _ _ hc) hnot
  · intro items hfw
    have hprop : ∀ k, fw.prop k = JSVal.undefined := by
      intro k
      rw [hfw]; rfl
    have hnull : ∀ k, (fw.prop k).nullish = true := by
      intro k
      rw [hprop]; rfl
    have hw := hwhite JSVal.undefined (hprop "col") (fun cf hcf => by cases hcf)
    exact ⟨hsizeNone (hnull _), hxNone (hnull _), hyNone (hnull _), hw.1, hw.2.1, hw.2.2,
      hshapeNone (hnull _)⟩

/-- Witness of C10, on an 800 by 600 canvas.  The payload `{size: 99}` spawns
one white burst of size 2.2 at the centre.  The payload `{x: 0.25, y: 0.75,
size: 1.5, shape: "ring", col: {r: 10, g: 20, b: 30}}` spawns one ring of size
1.5 at `(200, 450)` with the colour `(10, 20, 30)`.  The payload
`{col: {r: 10, b: null}}` spawns a Firework of colour `(10, 255, 255)`, and
`{col: "red"}` a white one. -/
theorem C10_receiver_normalisation_witness :
    (rejects oversized = false
        ∧ ∃ f k2, spawnFireworkFromNetwork sampleEnv Client.init oversized false
              = some { fireworks := Client.init.fireworks ++ [f], cursor := k2 }
            ∧ f.size = .fin 2.2 ∧ f.x = .fin 400 ∧ f.y = .fin 300
            ∧ f.col.r = .num 255 ∧ f.col.g = .num 255 ∧ f.col.b = .num 255
            ∧ f.shape = "burst")
      ∧ (rejects tinted = false
        ∧ ∃ f k2, spawnFireworkFromNetwork sampleEnv Client.init tinted false
              = some { fireworks := Client.init.fireworks ++ [f], cursor := k2 }
            ∧ f.size = .fin 1.5 ∧ f.x = .fin 200 ∧ f.y = .fin 450
            ∧ f.col.r = .num 10 ∧ f.col.g = .num 20 ∧ f.col.b = .num 30
            ∧ f.shape = "ring")
      ∧ (rejects redOnly = false
        ∧ ∃ f k2, spawnFireworkFromNetwork sampleEnv Client.init redOnly true
              = some { fireworks := Client.init.fireworks ++ [f], cursor := k2 }
            ∧ f.col.r = .num 10 ∧ f.col.g = .num 255 ∧ f.col.b = .num 255)
      ∧ (rejects namedColour = false
        ∧ ∃ f k2, spawnFireworkFromNetwork sampleEnv Client.init namedColour true
              = some { fireworks := Client.init.fireworks ++ [f], cursor := k2 }
            ∧ f.col.r = .num 255 ∧ f.col.g = .num 255 ∧ f.col.b = .num 255) := by
  refine ⟨⟨rfl, ?_⟩, ⟨rfl, ?_⟩, ⟨rfl, ?_⟩, ⟨rfl, ?_⟩⟩
  · obtain ⟨_, f, k2, hspawn, _, _, _, _, hrec, _⟩ :=
      C10_receiver_normalisation sampleEnv Client.init oversized false rfl
    obtain ⟨hsize, hpos, hshape, _, hnocol, _⟩ := hrec _ rfl
    refine ⟨f, k2, hspawn, ?_, ?_, ?_, (hnocol rfl).1, (hnocol rfl).2.1, (hnocol rfl).2.2,
      hshape.2 rfl⟩
    · rw [hsize.1 99 rfl]
      congr 1
      norm_num
    · rw [hpos.2.1 rfl]
      simp only [sampleEnv, JSNum.mul]
      congr 1
      norm_num
    · rw [hpos.2.2.2 rfl]
      simp only [sampleEnv, JSNum.mul]
      congr 1
      norm_num
  · obtain ⟨_, f, k2, hspawn, _, _, _, _, hrec, _⟩ :=
      C10_receiver_normalisation sampleEnv Client.init tinted false rfl
    obtain ⟨hsize, hpos, hshape, hcol, _, _⟩ := hrec _ rfl
    obtain ⟨hcr, hcg, hcb⟩ := hcol _ rfl
    refine ⟨f, k2, hspawn, ?_, ?_, ?_, hcr.1 _ rfl rfl, hcg.1 _ rfl rfl, hcb.1 _ rfl rfl,
      hshape.1 "ring" rfl⟩
    · rw [hsize.1 1.5 rfl]
      congr 1
      norm_num
    · rw [hpos.1 0.25 rfl]
      simp only [sampleEnv, JSNum.mul]
      congr 1
      norm_num
    · rw [hpos.2.2.1 0.75 rfl]
      simp only [sampleEnv, JSNum.mul]
      congr 1
      norm_num
  · obtain ⟨_, f, k2, hspawn, _, _, _, _, hrec, _⟩ :=
      C10_receiver_normalisation sampleEnv Client.init redOnly true rfl
    obtain ⟨_, _, _, hcol, _, _⟩ := hrec _ rfl
    obtain ⟨hcr, hcg, hcb⟩ := hcol _ rfl
    exact ⟨f, k2, hspawn, hcr.1 _ rfl rfl, hcg.2.2 rfl, hcb.2.1 _ rfl rfl⟩
  · obtain ⟨_, f, k2, hspawn, _, _, _, _, hrec, _⟩ :=
      C10_receiver_normalisation sampleEnv Client.init namedColour true rfl
    obtain ⟨_, _, _, _, _, hother⟩ := hrec _ rfl
    have hw := hother (JSVal.str "red") rfl (fun cf hcf => by cases hcf)
    exact ⟨f, k2, hspawn, hw.1, hw.2.1, hw.2.2⟩

/-! ## The claims about validation on the server -/

/-- C6, as stated, fails: the server does not clamp.  With one socket
connected, the payload `{size: 99}` is stored and relayed with size 99, not
2.2, and `{size: -5}` with size -5, not 0.4. -/
theorem C6_server_does_not_clamp :
    (rejects oversized = false
        ∧ (step MAX_HISTORY (run MAX_HISTORY Server.init [Input.connect]).1
            (Input.launch 0 oversized)).1.fireworksHistory = [oversized]
        ∧ (step MAX_HISTORY (run MAX_HISTORY Server.init [Input.connect]).1
            (Input.launch 0 oversized)).2
            = [Action.push oversized, Action.send (launchMsg oversized 0)]
        ∧ oversized.prop "size" = JSVal.num 99
        ∧ oversized.prop "size" ≠ JSVal.num 2.2)
      ∧ (rejects undersized = false
        ∧ (step MAX_HISTORY (run MAX_HISTORY Server.init [Input.connect]).1
            (Input.launch 0 undersized)).1.fireworksHistory = [undersized]
        ∧ (step MAX_HISTORY (run MAX_HISTORY Server.init [Input.connect]).1
            (Input.launch 0 undersized)).2
            = [Action.push undersized, Action.send (launchMsg undersized 0)]
        ∧ undersized.prop "size" = JSVal.num (-5)
        ∧ undersized.prop "size" ≠ JSVal.num 0.4) := by
  refine ⟨⟨rfl, rfl, rfl, rfl, ?_⟩, ⟨rfl, rfl, rfl, rfl, ?_⟩⟩
  · intro h
    have h2 : JSVal.num 99 = JSVal.num 2.2 := h
    injection h2 with h3
    norm_num at h3
  · intro h
    have h2 : JSVal.num (-5) = JSVal.num 0.4 := h
    injection h2 with h3
    norm_num at h3

/-- C6, amended.  The server stores and relays every accepted payload as it
came: the payload is the new tail of the history, it is the one thing pushed,
and every message sent carries it.  The size is clamped by the receiver: a
client that spawns from the relayed payload, whose size is the number `q`,
gets a `Firework` of size `max (min q 2.2) 0.4`. -/
theorem C6_payload_relayed_unchanged_clamped_by_receiver (σ : Server) (fw : JSVal)
    (hacc : rejects fw = false) :
    (launchHandler MAX_HISTORY σ fw).1.fireworksHistory.getLast? = some fw
      ∧ pushes (launchHandler MAX_HISTORY σ fw).2 = [fw]
      ∧ (∀ m, Action.send m ∈ (launchHandler MAX_HISTORY σ fw).2 → m.data = fw)
      ∧ (∀ (env : Env) (st : Client) (isHistory : Bool) (q : ℚ),
          fw.prop "size" = JSVal.num q →
          ∃ f k2, spawnFireworkFromNetwork env st fw isHistory
              = some { fireworks := st.fireworks ++ [f], cursor := k2 }
            ∧ f.size = .fin (Max.max (Min.min q 2.2) 0.4)) := by
  refine ⟨launchHandler_last σ fw hacc, launchHandler_pushes MAX_HISTORY σ fw hacc,
    fun m hm => (launchHandler_sends MAX_HISTORY σ fw hacc m hm).2.1, ?_⟩
  intro env st isHistory q hq
  obtain ⟨f, k2, hspawn, _, _, _, hsz, _, _⟩ := spawn_pushes_one env st fw isHistory hacc
  refine ⟨f, k2, hspawn, ?_⟩
  rw [hsz, hq]
  rfl

/-- Witness of the amended C6: `{size: 99}` is stored with size 99, and the
receiver spawns a `Firework` of size 2.2 from it. -/
theorem C6_payload_relayed_unchanged_clamped_by_receiver_witness :
    rejects oversized = false
      ∧ (launchHandler MAX_HISTORY Server.init oversized).1.fireworksHistory.getLast?
          = some oversized
      ∧ ∃ f k2, spawnFireworkFromNetwork sampleEnv Client.init oversized false
            = some { fireworks := Client.init.fireworks ++ [f], cursor := k2 }
          ∧ f.size = .fin 2.2 := by
  have h := C6_payload_relayed_unchanged_clamped_by_receiver Server.init oversized rfl
  obtain ⟨f, k2, hspawn, hsz⟩ := h.2.2.2 sampleEnv Client.init false 99 rfl
  refine ⟨rfl, h.1, f, k2, hspawn, ?_⟩
  rw [hsz]
  congr 1
  norm_num

/-- C7, as stated, fails for `{}`: with one socket connected, the server
accepts the empty record, stores and relays it as it came, and the stored
event has no field at all, so it is not a fully-defaulted Event. -/
theorem C7_empty_record_stored_undefaulted :
    rejects emptyRecord = false
      ∧ (step MAX_HISTORY (run MAX_HISTORY Server.init [Input.connect]).1
          (Input.launch 0 emptyRecord)).1.fireworksHistory = [emptyRecord]
      ∧ (step MAX_HISTORY (run MAX_HISTORY Server.init [Input.connect]).1
          (Input.launch 0 emptyRecord)).1.fireworksHistory
          ≠ (run MAX_HISTORY Server.init [Input.connect]).1.fireworksHistory
      ∧ (step MAX_HISTORY (run MAX_HISTORY Server.init [Input.connect]).1
          (Input.launch 0 emptyRecord)).2
          = [Action.push emptyRecord, Action.send (launchMsg emptyRecord 0)]
      ∧ (∀ k, emptyRecord.prop k = JSVal.undefined)
      ∧ ¬ FullyDefaulted emptyRecord := by
  refine ⟨rfl, rfl, ?_, rfl, fun k => rfl, ?_⟩
  · intro h
    have h2 : [emptyRecord] = ([] : List JSVal) := h
    exact absurd h2 (List.cons_ne_nil _ _)
  · intro h
    have h2 : JSVal.undefined = JSVal.num 1.0 := h.2.2.2.2.2.2
    cases h2

/-- C7, amended.  The launch handler is total, so it raises nothing.  It
rejects `null`, `42` and `"string"`: state unchanged, nothing sent.  It accepts
`{}` and stores and relays it as it came, without defaults.  The defaults are
applied by the receiver: a client that spawns from `{}` gets a `Firework` at
`(0.5 * width, 0.5 * height)`, of colour `(255, 255, 255)`, shape `burst` and
size `1.0`. -/
theorem C7_rejects_or_relays_undefaulted (σ : Server) :
    launchHandler MAX_HISTORY σ JSVal.null = (σ, [])
      ∧ launchHandler MAX_HISTORY σ (JSVal.num 42) = (σ, [])
      ∧ launchHandler MAX_HISTORY σ (JSVal.str "string") = (σ, [])
      ∧ (launchHandler MAX_HISTORY σ emptyRecord).1.fireworksHistory.getLast? = some emptyRecord
      ∧ pushes (launchHandler MAX_HISTORY σ emptyRecord).2 = [emptyRecord]
      ∧ (∀ m, Action.send m ∈ (launchHandler MAX_HISTORY σ emptyRecord).2 → m.data = emptyRecord)
      ∧ (∀ (env : Env) (st : Client) (isHistory : Bool),
          ∃ f k2, spawnFireworkFromNetwork env st emptyRecord isHistory
              = some { fireworks := st.fireworks ++ [f], cursor := k2 }
            ∧ f.x = JSNum.mul (.fin 0.5) env.width ∧ f.y = JSNum.mul (.fin 0.5) env.height
            ∧ f.col.r = .num 255 ∧ f.col.g = .num 255 ∧ f.col.b = .num 255
            ∧ f.shape = "burst" ∧ f.size = .fin 1.0) := by
  have hacc : rejects emptyRecord = false := rfl
  refine ⟨launchHandler_rejected MAX_HISTORY σ _ rfl,
    launchHandler_rejected MAX_HISTORY σ _ (by simp [rejects, JSVal.typeof]),
    launchHandler_rejected MAX_HISTORY σ _ (by simp [rejects, JSVal.typeof]),
    launchHandler_last σ emptyRecord hacc, launchHandler_pushes MAX_HISTORY σ emptyRecord hacc,
    fun m hm => (launchHandler_sends MAX_HISTORY σ emptyRecord hacc m hm).2.1, ?_⟩
  intro env st isHistory
  obtain ⟨f, k2, hspawn, hx, hy, hcol, hsz, hsh, _⟩ :=
    spawn_pushes_one env st emptyRecord isHistory hacc
  refine ⟨f, k2, hspawn, ?_, ?_, ?_, ?_, ?_, ?_, ?_⟩
  · rw [hx]; rfl
  · rw [hy]; rfl
  · rw [hcol]; rfl
  · rw [hcol]; rfl
  · rw [hcol]; rfl
  · rw [hsh]; rfl
  · rw [hsz]
    simp only [emptyRecord, JSVal.prop, getProp, List.lookup, Option.getD, orElse, JSVal.nullish,
      toNumber, constrain, JSNum.min, JSNum.max, if_true]
    congr 1
    norm_num

end Fireworks
